import Mathlib

/-!
# Chat relay (`websocket-server-chat/main.go`): shallow embedding

The Go program keeps four process-wide variables guarded by one `sync.RWMutex`:
`messageID`, `allMessages`, `clients` and `onlineUsers`.  Every handler body is
translated here as a function from the values of these variables (a `State`) to
the new values together with the list of `WriteJSON` calls it makes.

Modelling conventions.

* Go `int` is rendered as `Int`.  In `appendMessage`, and so in `handleChat`, `step`
  and `chatStep`, `messageID++` is the mathematical increment.  This is exact on every
  state reachable from the start of the process: there the counter is
  `len(allMessages) + 1`, and a slice that long cannot be allocated before the counter
  would leave the 64-bit range (`counter_increment_in_range`).  It is not exact on the
  state whose counter is the largest `int`: `appendMessage64` and `handleChat64`
  render the increment with the 64-bit wrap-around `wrapInt64` and are used where a
  result is stated for every store.
* `time.Time` values are abstract instants (`Nat`); the instant returned by
  `time.Now()` is an argument of the step that calls it.
* `*websocket.Conn` is a non-nil handle (`Nat`).  The only value ever stored in
  `clients` is the result of a successful `Upgrade`, which is never `nil`, so an
  absent key and a `nil` lookup result coincide.
* A Go `map[string]V` is an association list with unique keys (`AList`).  Go leaves
  the iteration order of a map unspecified; `broadcastEvent` is modelled with the
  order of the entries of the list.
* `json.Unmarshal` is external: a handler receives `none` when decoding failed and
  `some p` when it produced the payload `p`.
* Handlers are atomic steps (`step`), except in the section on interleaved executions,
  where `handleChat` is executed statement by statement by several goroutines
  (`chatStep`) and the lock is the only synchronisation.
-/

namespace ChatServer

/-! ## Data model (main.go, lines 15-59) -/

/-- Abstract instant standing for a Go `time.Time`. -/
abbrev Time := Nat

/-- Handle standing for a non-nil `*websocket.Conn`. -/
abbrev Conn := Nat

/-- Go `map[string]V`. -/
abbrev GoMap (V : Type) := AList (fun _ : String => V)

/-- `ChatPayload` (lines 20-24). -/
structure ChatPayload where
  From : String
  To : String
  Message : String
deriving DecidableEq, Repr

/-- `ReadPayload` (lines 26-29). -/
structure ReadPayload where
  From : String
  To : String
deriving DecidableEq, Repr

/-- `TypingPayload` (lines 31-34). -/
structure TypingPayload where
  From : String
  To : String
deriving DecidableEq, Repr

/-- `GetChatsPayload` (lines 36-39). -/
structure GetChatsPayload where
  User1 : String
  User2 : String
deriving DecidableEq, Repr

/-- `Message` (lines 41-48). -/
structure Message where
  ID : Int
  From : String
  To : String
  Text : String
  Read : Bool
  Timestamp : Time
deriving DecidableEq, Repr

/-- The values passed to `toJSONRaw` in the program: a `Message`, a `ReadPayload`,
a `map[string]string` literal, or a `[]Message`. -/
inductive Data where
  | message (m : Message)
  | readPayload (p : ReadPayload)
  | stringMap (kvs : List (String × String))
  | messages (ms : List Message)
deriving DecidableEq, Repr

/-- Outbound `Envelope` (lines 15-18): the event name and the encoded value. -/
structure Envelope where
  Event : String
  Data : Data
deriving DecidableEq, Repr

/-- One call `conn.WriteJSON(env)`. -/
structure Write where
  conn : Conn
  env : Envelope
deriving DecidableEq, Repr

/-- The package-level variables of lines 52-57 (the lock itself carries no data). -/
structure State where
  messageID : Int
  allMessages : List Message
  clients : GoMap Conn
  onlineUsers : GoMap Bool

/-- Values of the variables at process start (lines 53-56). -/
def State.init : State where
  messageID := 1
  allMessages := []
  clients := ∅
  onlineUsers := ∅

/-! ## Critical sections of the handlers -/

/-- Lines 126-137 of `handleChat`: build the message from the counter, increment the
counter, append.  Returns the new state and the local variable `msg`. -/
def appendMessage (p : ChatPayload) (now : Time) (s : State) : State × Message :=
  let msg : Message :=
    { ID := s.messageID, From := p.From, To := p.To, Text := p.Message,
      Timestamp := now, Read := false }
  ({ s with messageID := s.messageID + 1, allMessages := s.allMessages ++ [msg] }, msg)

/-- Body of the loop of lines 155-159 at index `i`: `allMessages[i].Read = true` when
the sender and recipient of `allMessages[i]` equal those of the payload. -/
def markReadAt (pFrom pTo : String) (ms : List Message) (i : Nat) : List Message :=
  match ms[i]? with
  | some m => if m.From = pFrom ∧ m.To = pTo then ms.set i { m with Read := true } else ms
  | none => ms

/-- Lines 155-159 of `handleRead`: `for i := range allMessages`, updating in place. -/
def markRead (pFrom pTo : String) (ms : List Message) : List Message :=
  (List.range ms.length).foldl (markReadAt pFrom pTo) ms

/-- Lines 193-199 of `handleGetChats`: `chatList` starts empty and each message of the
conversation, in either direction, is appended to it in turn. -/
def history (user1 user2 : String) (ms : List Message) : List Message :=
  ms.foldl
    (fun chatList m =>
      if (m.From = user1 ∧ m.To = user2) ∨ (m.From = user2 ∧ m.To = user1)
      then chatList ++ [m] else chatList)
    []

/-- Lines 206-212 of `handleGetNotif`: `notif` starts empty and each unread message
addressed to `userId` is appended to it in turn. -/
def unreadFor (userId : String) (ms : List Message) : List Message :=
  ms.foldl
    (fun notif m => if m.To = userId ∧ !m.Read then notif ++ [m] else notif)
    []

/-- Lines 76-79 of `handleWebSocket`: `clients[userId] = conn; onlineUsers[userId] = true`. -/
def register (userId : String) (conn : Conn) (s : State) : State :=
  { s with clients := s.clients.insert userId conn,
           onlineUsers := s.onlineUsers.insert userId true }

/-- Lines 110-113 of `handleWebSocket`: `delete(clients, userId); delete(onlineUsers, userId)`. -/
def deregister (userId : String) (s : State) : State :=
  { s with clients := s.clients.erase userId,
           onlineUsers := s.onlineUsers.erase userId }

/-- `broadcastEvent` (lines 220-226): one `WriteJSON` per entry of `clients`. -/
def broadcastEvent (event : String) (payload : Data) (s : State) : List Write :=
  s.clients.entries.map (fun e => { conn := e.2, env := { Event := event, Data := payload } })

/-! ## Handlers (lines 120-216) -/

/-- `handleChat` (lines 120-146). -/
def handleChat (data : Option ChatPayload) (now : Time) (s : State) : State × List Write :=
  match data with
  | none => (s, [])
  | some p =>
    let (s', msg) := appendMessage p now s
    match s'.clients.lookup p.To with
    | some toConn => (s', [{ conn := toConn, env := { Event := "chat", Data := .message msg } }])
    | none => (s', [])

/-- `handleRead` (lines 148-169). -/
def handleRead (data : Option ReadPayload) (s : State) : State × List Write :=
  match data with
  | none => (s, [])
  | some p =>
    let s' := { s with allMessages := markRead p.From p.To s.allMessages }
    match s'.clients.lookup p.From with
    | some fromConn =>
      (s', [{ conn := fromConn, env := { Event := "read", Data := .readPayload p } }])
    | none => (s', [])

/-- `handleTyping` (lines 171-185). -/
def handleTyping (data : Option TypingPayload) (s : State) : State × List Write :=
  match data with
  | none => (s, [])
  | some p =>
    match s.clients.lookup p.To with
    | some toConn =>
      (s, [{ conn := toConn,
             env := { Event := "typing", Data := .stringMap [("from", p.From)] } }])
    | none => (s, [])

/-- `handleGetChats` (lines 187-203). -/
def handleGetChats (conn : Conn) (data : Option GetChatsPayload) (s : State) :
    State × List Write :=
  match data with
  | none => (s, [])
  | some p =>
    (s, [{ conn := conn,
           env := { Event := "getChats",
                    Data := .messages (history p.User1 p.User2 s.allMessages) } }])

/-- `handleGetNotif` (lines 205-216). -/
def handleGetNotif (conn : Conn) (userId : String) (s : State) : State × List Write :=
  (s, [{ conn := conn,
         env := { Event := "getNotif", Data := .messages (unreadFor userId s.allMessages) } }])

/-! ## The session function `handleWebSocket` (lines 63-116) -/

/-- The two ways `handleWebSocket` returns before a session exists (lines 65-73). -/
inductive EnterError where
  | missingUserId
  | upgradeFailed
deriving DecidableEq, Repr

/-- Lines 64-81 of `handleWebSocket`: reject an empty `userId`, give up when the upgrade
failed (`upgrade = none`), otherwise register and then broadcast `online`. -/
def handleWebSocketEnter (userId : String) (upgrade : Option Conn) (s : State) :
    Except EnterError (State × List Write) :=
  if userId = "" then .error .missingUserId
  else
    match upgrade with
    | none => .error .upgradeFailed
    | some conn =>
      let s' := register userId conn s
      .ok (s', broadcastEvent "online" (.stringMap [("userId", userId)]) s')

/-- What one iteration of the read loop obtained after `ReadMessage` succeeded (lines 91-107):
an envelope that does not decode, one of the five known events with the outcome of decoding
its payload, or an envelope with any other event name. -/
inductive Frame where
  | undecodable
  | chat (data : Option ChatPayload)
  | read (data : Option ReadPayload)
  | typing (data : Option TypingPayload)
  | getChats (data : Option GetChatsPayload)
  | getNotif
  | other (event : String)
deriving DecidableEq, Repr

/-- Lines 91-107 of `handleWebSocket`: the `switch env.Event` of a session with connection
`conn` and identifier `userId`. -/
def dispatch (conn : Conn) (userId : String) (f : Frame) (now : Time) (s : State) :
    State × List Write :=
  match f with
  | .undecodable => (s, [])
  | .chat data => handleChat data now s
  | .read data => handleRead data s
  | .typing data => handleTyping data s
  | .getChats data => handleGetChats conn data s
  | .getNotif => handleGetNotif conn userId s
  | .other _ => (s, [])

/-- Lines 110-115 of `handleWebSocket`: deregister and then broadcast `offline`. -/
def handleWebSocketExit (userId : String) (s : State) : State × List Write :=
  let s' := deregister userId s
  (s', broadcastEvent "offline" (.stringMap [("userId", userId)]) s')

/-! ## Atomic steps, runs and sessions -/

/-- One atomic step of the server: a session entering with a non-nil connection, a session
leaving, or one iteration of the read loop of a session. -/
inductive Action where
  | connect (userId : String) (conn : Conn)
  | disconnect (userId : String)
  | frame (conn : Conn) (userId : String) (f : Frame) (now : Time)
deriving DecidableEq, Repr

/-- Effect of one atomic step on the package-level variables, with the writes it makes.
A connect with an empty identifier is rejected by line 65 and changes nothing. -/
def step (s : State) : Action → State × List Write
  | .connect userId conn =>
    match handleWebSocketEnter userId (some conn) s with
    | .ok r => r
    | .error _ => (s, [])
  | .disconnect userId => handleWebSocketExit userId s
  | .frame conn userId f now => dispatch conn userId f now s

/-- State after a finite sequence of atomic steps, started from `s`.  The states reachable
from the start of the process are the values `runFrom State.init as`. -/
def runFrom (s : State) (as : List Action) : State :=
  as.foldl (fun st a => (step st a).1) s

/-- One running `handleWebSocket` call that has passed line 79 and not yet reached
line 110: its `userId` and its `conn`. -/
structure Session where
  userId : String
  conn : Conn
deriving DecidableEq, Repr

/-- The package-level variables together with the sessions currently in their read loop. -/
structure System where
  state : State
  sessions : List Session

/-- Systems reachable from the start of the process.  A session enters with a non-empty
identifier, handles frames only while it is in its read loop, and leaves once.  With
`exclusive = true` a session may enter only when no session with the same identifier is
in its read loop. -/
inductive Run (exclusive : Bool) : System → Prop where
  | init : Run exclusive { state := State.init, sessions := [] }
  | connect (sys : System) (userId : String) (conn : Conn) :
      Run exclusive sys → userId ≠ "" →
      (exclusive = true → ∀ x ∈ sys.sessions, x.userId ≠ userId) →
      Run exclusive
        { state := (step sys.state (.connect userId conn)).1,
          sessions := { userId := userId, conn := conn } :: sys.sessions }
  | frame (sys : System) (x : Session) (f : Frame) (now : Time) :
      Run exclusive sys → x ∈ sys.sessions →
      Run exclusive
        { state := (step sys.state (.frame x.conn x.userId f now)).1,
          sessions := sys.sessions }
  | disconnect (sys : System) (x : Session) :
      Run exclusive sys → x ∈ sys.sessions →
      Run exclusive
        { state := (step sys.state (.disconnect x.userId)).1,
          sessions := sys.sessions.erase x }

/-! ## Interleaved executions of `handleChat`

`handleChat` run by several goroutines at once, statement by statement.  The only
synchronisation is `lock`: `Lock` is granted when nobody holds the lock, `RLock` when nobody
holds it for writing, and a goroutine that is not granted the lock cannot take a step. -/

/-- The composite literal of lines 127-134. -/
def chatMessage (p : ChatPayload) (now : Time) (id : Int) : Message :=
  { ID := id, From := p.From, To := p.To, Text := p.Message, Timestamp := now, Read := false }

/-- One running call of `handleChat` whose payload decoded to `p`: `now` is the instant its
call of `time.Now()` returns, `pc` counts the statements of lines 126-145 executed so far,
`msg` and `toConn` are the local variables (zero values until assigned). -/
structure ChatThread where
  p : ChatPayload
  now : Time
  pc : Nat
  msg : Message
  toConn : Option Conn
deriving DecidableEq, Repr

/-- The package-level variables, the holders of `lock` (at most one writer, any number of
readers), the running `handleChat` calls and the writes made so far. -/
structure Conc where
  shared : State
  writer : Option Nat
  readers : List Nat
  threads : List ChatThread
  out : List Write

/-- All calls about to execute line 126, nobody holding the lock. -/
def Conc.start (s : State) (calls : List (ChatPayload × Time)) : Conc where
  shared := s
  writer := none
  readers := []
  threads := calls.map (fun x =>
    { p := x.1, now := x.2, pc := 0,
      msg := { ID := 0, From := "", To := "", Text := "", Read := false, Timestamp := 0 },
      toConn := none })
  out := []

/-- Call number `i` executes its next statement; `none` when there is no such call, when it
has returned, or when it waits for the lock.
`pc` 0: line 126 `lock.Lock()`; 1: lines 127-134 `msg := Message{...}`; 2: line 135
`messageID++`; 3: line 136 `allMessages = append(allMessages, msg)`; 4: line 137
`lock.Unlock()`; 5: line 140 `lock.RLock()`; 6: line 141 `toConn := clients[p.To]`; 7: line
142 `lock.RUnlock()`; 8: lines 143-145, the conditional `WriteJSON`. -/
def chatStep (c : Conc) (i : Nat) : Option Conc :=
  match c.threads[i]? with
  | none => none
  | some t =>
    match t.pc with
    | 0 =>
      if c.writer = none ∧ c.readers = [] then
        some { c with writer := some i, threads := c.threads.set i { t with pc := 1 } }
      else none
    | 1 =>
      some { c with
        threads := c.threads.set i
          { t with pc := 2, msg := chatMessage t.p t.now c.shared.messageID } }
    | 2 =>
      some { c with
        shared := { c.shared with messageID := c.shared.messageID + 1 },
        threads := c.threads.set i { t with pc := 3 } }
    | 3 =>
      some { c with
        shared := { c.shared with allMessages := c.shared.allMessages ++ [t.msg] },
        threads := c.threads.set i { t with pc := 4 } }
    | 4 => some { c with writer := none, threads := c.threads.set i { t with pc := 5 } }
    | 5 =>
      if c.writer = none then
        some { c with readers := i :: c.readers, threads := c.threads.set i { t with pc := 6 } }
      else none
    | 6 =>
      some { c with
        threads := c.threads.set i { t with pc := 7, toConn := c.shared.clients.lookup t.p.To } }
    | 7 =>
      some { c with readers := c.readers.erase i, threads := c.threads.set i { t with pc := 8 } }
    | 8 =>
      some { c with
        out := c.out ++
          (match t.toConn with
           | some conn => [{ conn := conn, env := { Event := "chat", Data := .message t.msg } }]
           | none => []),
        threads := c.threads.set i { t with pc := 9 } }
    | _ => none

/-- The calls take steps in the order given by the schedule `sched`; `none` when the schedule
asks a call to step that cannot. -/
def chatRun (c : Conc) : List Nat → Option Conc
  | [] => some c
  | i :: sched => (chatStep c i).bind (fun c' => chatRun c' sched)

/-- Serial execution: the calls numbered in `order` run the atomic handler `handleChat` one
after the other, in that order, from the store `s0`. -/
def serial (s0 : State) (calls : List (ChatPayload × Time)) (order : List Nat) : State :=
  order.foldl
    (fun st i =>
      match calls[i]? with
      | some x => (handleChat (some x.1) x.2 st).1
      | none => st)
    s0

/-- Relation kept by every interleaved execution of the calls `calls` started from `s0`,
where `order` lists the calls that have executed line 136, in the order they did: the log is
the one of the serial execution in that order, the counter is the serial one (plus one while
a call stands between lines 135 and 136), the maps are untouched, a call holds the lock for
writing exactly while it is between lines 126 and 137, and the message a call has built
carries the serial counter as id. -/
structure ChatInv (s0 : State) (calls : List (ChatPayload × Time)) (c : Conc)
    (order : List Nat) : Prop where
  len : c.threads.length = calls.length
  params : ∀ (i : Nat) (t : ChatThread), c.threads[i]? = some t → calls[i]? = some (t.p, t.now)
  mutex : ∀ (i : Nat) (t : ChatThread), c.threads[i]? = some t → (c.writer = some i ↔ 1 ≤ t.pc ∧ t.pc ≤ 4)
  nodup : order.Nodup
  mem_order : ∀ i, i ∈ order ↔ ∃ t, c.threads[i]? = some t ∧ 4 ≤ t.pc
  log : c.shared.allMessages = (serial s0 calls order).allMessages
  clients : c.shared.clients = s0.clients
  online : c.shared.onlineUsers = s0.onlineUsers
  ctr3 : ∀ (i : Nat) (t : ChatThread), c.threads[i]? = some t → t.pc = 3 →
    c.shared.messageID = (serial s0 calls order).messageID + 1
  ctr : (∀ (i : Nat) (t : ChatThread), c.threads[i]? = some t → t.pc ≠ 3) →
    c.shared.messageID = (serial s0 calls order).messageID
  msg : ∀ (i : Nat) (t : ChatThread), c.threads[i]? = some t → (t.pc = 2 ∨ t.pc = 3) →
    t.msg = chatMessage t.p t.now (serial s0 calls order).messageID

/-- Facts about the lock kept by every interleaved execution: no call is past its last
statement, the writer is one of the calls, and the readers are distinct calls standing
between lines 140 and 142. -/
structure LockInv (c : Conc) : Prop where
  pc_le : ∀ (i : Nat) (t : ChatThread), c.threads[i]? = some t → t.pc ≤ 9
  writer_some : ∀ (i : Nat), c.writer = some i → ∃ t, c.threads[i]? = some t
  readers_pc : ∀ j ∈ c.readers, ∃ t, c.threads[j]? = some t ∧ (t.pc = 6 ∨ t.pc = 7)
  readers_nodup : c.readers.Nodup

/-! ## Auxiliary definitions used to state the results -/

/-- Value a 64-bit Go `int` holds for the mathematical result `x` of an arithmetic
operation (two's complement wrap-around). -/
def wrapInt64 (x : Int) : Int :=
  (x + 9223372036854775808) % 18446744073709551616 - 9223372036854775808

/-- Two chats to the same recipient "r", who is connected on channel 7. -/
def twoChatsStart : Conc :=
  Conc.start (runFrom State.init [.connect "r" 7])
    [({ From := "a", To := "r", Message := "x" }, 3),
     ({ From := "b", To := "r", Message := "y" }, 4)]

/-- A schedule for two calls: call 0 runs lines 126-137, then call 1 does, and then the two
calls alternate through lines 140-145. -/
def twoChatsSchedule : List Nat :=
  [0, 0, 0, 0, 0, 1, 1, 1, 1, 1, 0, 1, 0, 1, 1, 0, 1, 0]

/-- The configuration `twoChatsSchedule` leads to from `twoChatsStart`. -/
def twoChatsEnd : Conc where
  shared :=
    { messageID := 3,
      allMessages :=
        [{ ID := 1, From := "a", To := "r", Text := "x", Read := false, Timestamp := 3 },
         { ID := 2, From := "b", To := "r", Text := "y", Read := false, Timestamp := 4 }],
      clients := AList.insert "r" 7 ∅,
      onlineUsers := AList.insert "r" true ∅ }
  writer := none
  readers := []
  threads :=
    [{ p := { From := "a", To := "r", Message := "x" }, now := 3, pc := 9,
       msg := { ID := 1, From := "a", To := "r", Text := "x", Read := false, Timestamp := 3 },
       toConn := some 7 },
     { p := { From := "b", To := "r", Message := "y" }, now := 4, pc := 9,
       msg := { ID := 2, From := "b", To := "r", Text := "y", Read := false, Timestamp := 4 },
       toConn := some 7 }]
  out :=
    [{ conn := 7,
       env := { Event := "chat",
                Data := .message
                  { ID := 2, From := "b", To := "r", Text := "y", Read := false,
                    Timestamp := 4 } } },
     { conn := 7,
       env := { Event := "chat",
                Data := .message
                  { ID := 1, From := "a", To := "r", Text := "x", Read := false,
                    Timestamp := 3 } } }]

/-- The system after "u" connects on channel 1, connects again on channel 2, and the first
of the two sessions leaves: the second session is still in its read loop. -/
def staleDeregistration : System where
  state := runFrom State.init [.connect "u" 1, .connect "u" 2, .disconnect "u"]
  sessions := [{ userId := "u", conn := 2 }]

/-- The system after "u" connects on channel 1. -/
def singleSession : System where
  state := runFrom State.init [.connect "u" 1]
  sessions := [{ userId := "u", conn := 1 }]

/-- The update applied by `handleRead` to a single message. -/
def markOne (pFrom pTo : String) (m : Message) : Message :=
  if m.From = pFrom ∧ m.To = pTo then { m with Read := true } else m

/-! ## The loops of the handlers as list operations -/

theorem history_foldl (u1 u2 : String) (ms acc : List Message) :
    ms.foldl
      (fun chatList m =>
        if (m.From = u1 ∧ m.To = u2) ∨ (m.From = u2 ∧ m.To = u1)
        then chatList ++ [m] else chatList) acc
    = acc ++ ms.filter
        (fun m => decide ((m.From = u1 ∧ m.To = u2) ∨ (m.From = u2 ∧ m.To = u1))) := by
  induction ms generalizing acc with
  | nil => simp
  | cons m ms ih =>
    rw [List.foldl_cons, ih]
    by_cases h : (m.From = u1 ∧ m.To = u2) ∨ (m.From = u2 ∧ m.To = u1)
    · simp [h, List.filter_cons]
    · simp [h, List.filter_cons]

theorem unreadFor_foldl (u : String) (ms acc : List Message) :
    ms.foldl (fun notif m => if m.To = u ∧ !m.Read then notif ++ [m] else notif) acc
    = acc ++ ms.filter (fun m => decide (m.To = u ∧ m.Read = false)) := by
  induction ms generalizing acc with
  | nil => simp
  | cons m ms ih =>
    rw [List.foldl_cons, ih]
    by_cases h : m.To = u ∧ m.Read = false
    · simp [h, List.filter_cons]
    · have h' : ¬ (m.To = u ∧ (!m.Read) = true) := by simpa using h
      simp [h, h', List.filter_cons]

theorem markReadAt_length (pf pt : String) (ms : List Message) (i : Nat) :
    (markReadAt pf pt ms i).length = ms.length := by
  unfold markReadAt
  split
  · split <;> simp
  · rfl

theorem markReadAt_getElem? (pf pt : String) (ms : List Message) (i j : Nat) :
    (markReadAt pf pt ms i)[j]? = if j = i then ms[j]?.map (markOne pf pt) else ms[j]? := by
  unfold markReadAt
  by_cases hji : j = i
  · subst hji
    cases hm : ms[j]? with
    | none => simp [hm]
    | some m =>
      have hlt : j < ms.length := by
        by_contra hge
        rw [List.getElem?_eq_none (by omega)] at hm
        cases hm
      by_cases hc : m.From = pf ∧ m.To = pt
      · simp [hm, hc, markOne, List.getElem?_set, hlt]
      · simp [hm, hc, markOne]
  · cases hm : ms[i]? with
    | none => simp [hm, hji]
    | some m =>
      by_cases hc : m.From = pf ∧ m.To = pt
      · have : i ≠ j := fun h => hji h.symm
        simp [hm, hc, hji, List.getElem?_set, this]
      · simp [hm, hc, hji]

theorem markRead_loop (pf pt : String) (ms : List Message) (k : Nat) :
    ((List.range k).foldl (markReadAt pf pt) ms).length = ms.length ∧
    ∀ j, ((List.range k).foldl (markReadAt pf pt) ms)[j]?
      = if j < k then ms[j]?.map (markOne pf pt) else ms[j]? := by
  induction k with
  | zero => simp
  | succ k ih =>
    rw [List.range_succ, List.foldl_append]
    simp only [List.foldl_cons, List.foldl_nil]
    refine ⟨by rw [markReadAt_length]; exact ih.1, fun j => ?_⟩
    rw [markReadAt_getElem?, ih.2]
    by_cases hjk : j = k
    · subst hjk; simp
    · by_cases hlt : j < k
      · have : j < k + 1 := by omega
        simp [hjk, hlt, this]
      · have : ¬ j < k + 1 := by omega
        simp [hjk, hlt, this]

theorem markRead_eq_map (pf pt : String) (ms : List Message) :
    markRead pf pt ms = ms.map (markOne pf pt) := by
  apply List.ext_getElem?
  intro j
  unfold markRead
  rw [(markRead_loop pf pt ms ms.length).2 j]
  by_cases hlt : j < ms.length
  · simp [hlt]
  · simp [hlt, List.getElem?_eq_none (Nat.le_of_not_lt hlt)]

theorem handleChat_fst (p : ChatPayload) (now : Time) (s : State) :
    (handleChat (some p) now s).1 = (appendMessage p now s).1 := by
  unfold handleChat
  simp only
  split <;> rfl

theorem handleRead_fst (p : ReadPayload) (s : State) :
    (handleRead (some p) s).1 = { s with allMessages := markRead p.From p.To s.allMessages } := by
  unfold handleRead
  simp only
  split <;> rfl

theorem handleTyping_fst (data : Option TypingPayload) (s : State) :
    (handleTyping data s).1 = s := by
  unfold handleTyping
  cases data with
  | none => rfl
  | some p => simp only; split <;> rfl

theorem handleGetChats_fst (conn : Conn) (data : Option GetChatsPayload) (s : State) :
    (handleGetChats conn data s).1 = s := by
  cases data <;> rfl

theorem step_connect_fst (s : State) (u : String) (c : Conn) :
    (step s (.connect u c)).1 = if u = "" then s else register u c s := by
  unfold step handleWebSocketEnter
  by_cases h : u = "" <;> simp [h]

/-- Effect of one atomic step on the log and on the counter: nothing, one append (a decoded
chat frame), or the marking loop (a decoded read frame). -/
theorem step_log (s : State) (a : Action) :
    ((step s a).1.allMessages = s.allMessages ∧ (step s a).1.messageID = s.messageID) ∨
    (∃ c u p now, a = .frame c u (.chat (some p)) now ∧
      (step s a).1.allMessages = s.allMessages ++
        [{ ID := s.messageID, From := p.From, To := p.To, Text := p.Message,
           Read := false, Timestamp := now }] ∧
      (step s a).1.messageID = s.messageID + 1) ∨
    (∃ c u p now, a = .frame c u (.read (some p)) now ∧
      (step s a).1.allMessages = markRead p.From p.To s.allMessages ∧
      (step s a).1.messageID = s.messageID) := by
  cases a with
  | connect u c =>
    left
    rw [step_connect_fst]
    by_cases h : u = "" <;> simp [h, register]
  | disconnect u => left; simp [step, handleWebSocketExit, deregister]
  | frame c u f now =>
    cases f with
    | undecodable => left; simp [step, dispatch]
    | other e => left; simp [step, dispatch]
    | getNotif => left; simp [step, dispatch, handleGetNotif]
    | getChats data => left; simp [step, dispatch, handleGetChats_fst]
    | typing data => left; simp [step, dispatch, handleTyping_fst]
    | chat data =>
      cases data with
      | none => left; simp [step, dispatch, handleChat]
      | some p =>
        right; left
        refine ⟨c, u, p, now, rfl, ?_, ?_⟩ <;>
          simp [step, dispatch, handleChat_fst, appendMessage]
    | read data =>
      cases data with
      | none => left; simp [step, dispatch, handleRead]
      | some p =>
        right; right
        refine ⟨c, u, p, now, rfl, ?_, ?_⟩ <;>
          simp [step, dispatch, handleRead_fst]

/-! ## Message ids (C1) -/

theorem markOne_ID (pf pt : String) (m : Message) : (markOne pf pt m).ID = m.ID := by
  unfold markOne; split <;> rfl

theorem markRead_map_ID (pf pt : String) (ms : List Message) :
    (markRead pf pt ms).map Message.ID = ms.map Message.ID := by
  rw [markRead_eq_map, List.map_map]
  apply List.map_congr_left
  intro m _
  exact markOne_ID pf pt m

theorem markRead_length (pf pt : String) (ms : List Message) :
    (markRead pf pt ms).length = ms.length := by
  rw [markRead_eq_map, List.length_map]

theorem idInv_step (s : State) (a : Action)
    (hids : s.allMessages.map Message.ID
      = (List.range s.allMessages.length).map (fun (i : Nat) => (i : Int) + 1))
    (hctr : s.messageID = (s.allMessages.length : Int) + 1) :
    (step s a).1.allMessages.map Message.ID
      = (List.range (step s a).1.allMessages.length).map (fun (i : Nat) => (i : Int) + 1) ∧
    (step s a).1.messageID = ((step s a).1.allMessages.length : Int) + 1 := by
  rcases step_log s a with ⟨h1, h2⟩ | ⟨c, u, p, now, -, h1, h2⟩ | ⟨c, u, p, now, -, h1, h2⟩
  · rw [h1, h2]; exact ⟨hids, hctr⟩
  · rw [h1, h2]
    refine ⟨?_, ?_⟩
    · simp only [List.map_append, List.length_append, List.length_singleton, List.map_cons,
        List.map_nil, List.range_succ]
      rw [hids, hctr]
    · simp [hctr]
  · rw [h1, h2, markRead_map_ID, markRead_length]; exact ⟨hids, hctr⟩

theorem idInv_runFrom (as : List Action) (s : State)
    (hids : s.allMessages.map Message.ID
      = (List.range s.allMessages.length).map (fun (i : Nat) => (i : Int) + 1))
    (hctr : s.messageID = (s.allMessages.length : Int) + 1) :
    (runFrom s as).allMessages.map Message.ID
      = (List.range (runFrom s as).allMessages.length).map (fun (i : Nat) => (i : Int) + 1) ∧
    (runFrom s as).messageID = ((runFrom s as).allMessages.length : Int) + 1 := by
  induction as generalizing s with
  | nil => exact ⟨hids, hctr⟩
  | cons a as ih =>
    have h := idInv_step s a hids hctr
    exact ih (step s a).1 h.1 h.2

theorem range_succ_pairwise (n : Nat) :
    ((List.range n).map (fun (i : Nat) => (i : Int) + 1)).Pairwise (fun x y => x < y) := by
  rw [List.pairwise_map]
  apply List.Pairwise.imp _ (List.pairwise_lt_range n)
  intro a b hab
  omega

/-- The rendering of `messageID++` as the mathematical increment is exact: in every reachable
state whose log has fewer than 2^63 - 2 messages, the 64-bit increment of the counter does
not wrap around. -/
theorem counter_increment_in_range (as : List Action)
    (h : (runFrom State.init as).allMessages.length < 9223372036854775806) :
    wrapInt64 ((runFrom State.init as).messageID + 1) = (runFrom State.init as).messageID + 1 := by
  have hc := (idInv_runFrom as State.init (by simp [State.init]) (by simp [State.init])).2
  unfold wrapInt64
  omega

/-- C1. In every state reached from the initial state (counter 1, empty log) by a finite
sequence of atomic steps (connect, disconnect and frames of any kind with any payload),
the ids of the stored messages in log order are exactly 1, 2, ..., n for n the length of
the log; hence they are strictly increasing and pairwise distinct; and the counter
`messageID` equals n + 1. -/
theorem reachable_ids_contiguous (as : List Action) :
    (runFrom State.init as).allMessages.map Message.ID
      = (List.range (runFrom State.init as).allMessages.length).map (fun (i : Nat) => (i : Int) + 1) ∧
    ((runFrom State.init as).allMessages.map Message.ID).Pairwise (fun x y => x < y) ∧
    ((runFrom State.init as).allMessages.map Message.ID).Nodup ∧
    (runFrom State.init as).messageID
      = ((runFrom State.init as).allMessages.length : Int) + 1 := by
  have h := idInv_runFrom as State.init (by simp [State.init]) (by simp [State.init])
  have hp : ((runFrom State.init as).allMessages.map Message.ID).Pairwise (fun x y => x < y) := by
    rw [h.1]; exact range_succ_pairwise _
  exact ⟨h.1, hp, hp.imp (fun hxy => ne_of_lt hxy), h.2⟩

/-! ## The read handler (C2, C3) -/

/-- C2. For every store and every pair (from, to), the log after the read handler has the
same length; at every position the message has read = (old read OR (its from and to equal
the pair)) and the same id, from, to, text and timestamp as before; and when no stored
message matches the pair the log is unchanged. -/
theorem handleRead_log (s : State) (pFrom pTo : String) :
    (handleRead (some { From := pFrom, To := pTo }) s).1.allMessages.length
      = s.allMessages.length ∧
    (∀ (i : Nat) (m : Message), s.allMessages[i]? = some m →
      ∃ m', (handleRead (some { From := pFrom, To := pTo }) s).1.allMessages[i]? = some m' ∧
        m'.Read = (m.Read || decide (m.From = pFrom ∧ m.To = pTo)) ∧
        m'.ID = m.ID ∧ m'.From = m.From ∧ m'.To = m.To ∧ m'.Text = m.Text ∧
        m'.Timestamp = m.Timestamp) ∧
    ((∀ m ∈ s.allMessages, ¬ (m.From = pFrom ∧ m.To = pTo)) →
      (handleRead (some { From := pFrom, To := pTo }) s).1.allMessages = s.allMessages) := by
  rw [handleRead_fst]
  simp only [markRead_eq_map]
  refine ⟨by simp, ?_, ?_⟩
  · intro i m hm
    refine ⟨markOne pFrom pTo m, by simp [hm], ?_⟩
    unfold markOne
    by_cases hc : m.From = pFrom ∧ m.To = pTo
    · simp [hc]
    · simp [hc]
  · intro hno
    conv_rhs => rw [← List.map_id s.allMessages]
    apply List.map_congr_left
    intro m hm
    simp [markOne, hno m hm]

/-- C3, counterexample. After the single chat from "a" to "a", the stored message has
from = B and to = A for A = B = "a" and is unread; the read handler with the pair
("a", "a") sets its read flag. -/
theorem handleRead_flips_self_message :
    (runFrom State.init
        [.frame 1 "a" (.chat (some { From := "a", To := "a", Message := "me" })) 0]).allMessages
      = [{ ID := 1, From := "a", To := "a", Text := "me", Read := false, Timestamp := 0 }] ∧
    (handleRead (some { From := "a", To := "a" })
        (runFrom State.init
          [.frame 1 "a" (.chat (some { From := "a", To := "a", Message := "me" })) 0])).1.allMessages
      = [{ ID := 1, From := "a", To := "a", Text := "me", Read := true, Timestamp := 0 }] := by
  decide

/-- C3, amended. For every store and all distinct user identifiers A and B, the read handler
with the pair (A, B) leaves the read flag of every stored message with from = B and to = A
as it was. -/
theorem handleRead_reverse_direction (s : State) (A B : String) (hAB : A ≠ B)
    (i : Nat) (m : Message) (hm : s.allMessages[i]? = some m)
    (hfrom : m.From = B) (_hto : m.To = A) :
    ∃ m', (handleRead (some { From := A, To := B }) s).1.allMessages[i]? = some m' ∧
      m'.Read = m.Read := by
  rw [handleRead_fst]
  simp only [markRead_eq_map]
  refine ⟨markOne A B m, by simp [hm], ?_⟩
  have hne : ¬ (m.From = A ∧ m.To = B) := by
    rintro ⟨h1, -⟩
    exact hAB (h1.symm.trans hfrom)
  simp [markOne, hne]

/-- Instance of the amended C3 at A = "a", B = "b" and a stored message from "b" to "a". -/
theorem handleRead_reverse_direction_witness :
    ∃ m', (handleRead (some { From := "a", To := "b" })
        { State.init with
          allMessages :=
            [{ ID := 1, From := "b", To := "a", Text := "yo", Read := false, Timestamp := 0 }] }
        ).1.allMessages[0]? = some m' ∧
      m'.Read = false :=
  handleRead_reverse_direction
    { State.init with
      allMessages :=
        [{ ID := 1, From := "b", To := "a", Text := "yo", Read := false, Timestamp := 0 }] }
    "a" "b" (by decide) 0
    { ID := 1, From := "b", To := "a", Text := "yo", Read := false, Timestamp := 0 }
    rfl rfl rfl

/-! ## The query handlers (C4, C5, C6) -/

theorem history_eq_filter (u1 u2 : String) (ms : List Message) :
    history u1 u2 ms = ms.filter
      (fun m => decide ((m.From = u1 ∧ m.To = u2) ∨ (m.From = u2 ∧ m.To = u1))) := by
  unfold history
  rw [history_foldl, List.nil_append]

theorem unreadFor_eq_filter (u : String) (ms : List Message) :
    unreadFor u ms = ms.filter (fun m => decide (m.To = u ∧ m.Read = false)) := by
  unfold unreadFor
  rw [unreadFor_foldl, List.nil_append]

/-- C4. For every store and all users A and B, the getChats handler leaves the store
unchanged and writes, to the requesting connection, the log filtered by
(from = A and to = B) or (from = B and to = A): the result is a sublist of the log (append
order is kept), a message occurs in it as often as in the log when it satisfies the
predicate and not at all otherwise. -/
theorem handleGetChats_history (s : State) (conn : Conn) (A B : String) :
    handleGetChats conn (some { User1 := A, User2 := B }) s
      = (s, [{ conn := conn,
               env := { Event := "getChats",
                        Data := .messages (history A B s.allMessages) } }]) ∧
    history A B s.allMessages = s.allMessages.filter
      (fun m => decide ((m.From = A ∧ m.To = B) ∨ (m.From = B ∧ m.To = A))) ∧
    (history A B s.allMessages).Sublist s.allMessages ∧
    (∀ m, m ∈ history A B s.allMessages ↔
      m ∈ s.allMessages ∧ ((m.From = A ∧ m.To = B) ∨ (m.From = B ∧ m.To = A))) ∧
    (∀ m, (history A B s.allMessages).count m
      = if (m.From = A ∧ m.To = B) ∨ (m.From = B ∧ m.To = A)
        then s.allMessages.count m else 0) := by
  refine ⟨rfl, history_eq_filter A B _, ?_, ?_, ?_⟩
  · rw [history_eq_filter]; exact List.filter_sublist _
  · intro m; rw [history_eq_filter]; simp
  · intro m
    rw [history_eq_filter]
    by_cases h : (m.From = A ∧ m.To = B) ∨ (m.From = B ∧ m.To = A)
    · rw [List.count_filter (by simpa using h), if_pos h]
    · rw [if_neg h, List.count_eq_zero]
      simp [h]

/-- C5. For every store and all users A and B, the getChats handler computes the same
sequence for (A, B) and for (B, A), and so makes the same write. -/
theorem history_symmetric (s : State) (conn : Conn) (A B : String) :
    history A B s.allMessages = history B A s.allMessages ∧
    handleGetChats conn (some { User1 := A, User2 := B }) s
      = handleGetChats conn (some { User1 := B, User2 := A }) s := by
  have h : history A B s.allMessages = history B A s.allMessages := by
    rw [history_eq_filter, history_eq_filter]
    apply List.filter_congr
    intro m _
    simp only [decide_eq_decide]
    exact Or.comm
  refine ⟨h, ?_⟩
  simp only [handleGetChats, h]

/-- C6. For every store and every user U, the getNotif handler leaves the store unchanged
and writes, to the requesting connection, the log filtered by (to = U and read = false) in
append order: no message of the result is read or addressed to someone else, and every
stored unread message addressed to U is in the result. -/
theorem handleGetNotif_unread (s : State) (conn : Conn) (U : String) :
    handleGetNotif conn U s
      = (s, [{ conn := conn,
               env := { Event := "getNotif",
                        Data := .messages (unreadFor U s.allMessages) } }]) ∧
    unreadFor U s.allMessages
      = s.allMessages.filter (fun m => decide (m.To = U ∧ m.Read = false)) ∧
    (unreadFor U s.allMessages).Sublist s.allMessages ∧
    (∀ m ∈ unreadFor U s.allMessages, m.Read = false ∧ m.To = U) ∧
    (∀ m ∈ s.allMessages, m.To = U → m.Read = false → m ∈ unreadFor U s.allMessages) := by
  refine ⟨rfl, unreadFor_eq_filter U _, ?_, ?_, ?_⟩
  · rw [unreadFor_eq_filter]; exact List.filter_sublist _
  · intro m hm
    rw [unreadFor_eq_filter] at hm
    simp at hm
    exact ⟨hm.2.2, hm.2.1⟩
  · intro m hm hto hread
    rw [unreadFor_eq_filter]
    simp [hm, hto, hread]

/-! ## The presence registry (C7) -/

/-- C7. For every registry, every user U and all channels C1 and C2, after registering U
with C1 and then with C2 the lookup of U gives C2, U is marked online, U has exactly one
entry in each map, and the entries of every other user are as before. -/
theorem register_twice (s : State) (U : String) (C1 C2 : Conn) :
    (register U C2 (register U C1 s)).clients.lookup U = some C2 ∧
    (register U C2 (register U C1 s)).onlineUsers.lookup U = some true ∧
    (register U C2 (register U C1 s)).clients.keys.count U = 1 ∧
    (register U C2 (register U C1 s)).onlineUsers.keys.count U = 1 ∧
    (∀ u, u ≠ U →
      (register U C2 (register U C1 s)).clients.lookup u = s.clients.lookup u ∧
      (register U C2 (register U C1 s)).onlineUsers.lookup u = s.onlineUsers.lookup u) ∧
    (register U C2 (register U C1 s)).allMessages = s.allMessages ∧
    (register U C2 (register U C1 s)).messageID = s.messageID := by
  refine ⟨?_, ?_, ?_, ?_, ?_, rfl, rfl⟩
  · simp [register]
  · simp [register]
  · apply List.count_eq_one_of_mem (AList.keys_nodup _)
    simp [register, ← AList.mem_keys]
  · apply List.count_eq_one_of_mem (AList.keys_nodup _)
    simp [register, ← AList.mem_keys]
  · intro u hu
    simp [register, AList.lookup_insert_ne hu]

/-! ## Sessions and the registry (C8) -/

theorem step_frame_clients (s : State) (c : Conn) (u : String) (f : Frame) (now : Time) :
    (step s (.frame c u f now)).1.clients = s.clients := by
  cases f with
  | undecodable => rfl
  | other e => rfl
  | getNotif => rfl
  | getChats data => simp [step, dispatch, handleGetChats_fst]
  | typing data => simp [step, dispatch, handleTyping_fst]
  | chat data =>
    cases data with
    | none => rfl
    | some p => simp [step, dispatch, handleChat_fst, appendMessage]
  | read data =>
    cases data with
    | none => rfl
    | some p => simp [step, dispatch, handleRead_fst]

theorem step_disconnect_clients (s : State) (u : String) :
    (step s (.disconnect u)).1.clients = s.clients.erase u := rfl

theorem step_connect_clients (s : State) (u : String) (c : Conn) (hu : u ≠ "") :
    (step s (.connect u c)).1.clients = s.clients.insert u c := by
  rw [step_connect_fst, if_neg hu]; rfl

/-- Invariant of the runs: every key of `clients` belongs to a session in its read loop; in
an exclusive run the sessions have pairwise distinct identifiers and each is a key. -/
theorem run_invariant (exclusive : Bool) (sys : System) (h : Run exclusive sys) :
    (∀ u, u ∈ sys.state.clients → ∃ x ∈ sys.sessions, x.userId = u) ∧
    (exclusive = true →
      (sys.sessions.map Session.userId).Nodup ∧
      ∀ x ∈ sys.sessions, x.userId ∈ sys.state.clients) := by
  induction h with
  | init =>
    refine ⟨?_, fun _ => ⟨by simp, by simp⟩⟩
    intro u hu
    exact absurd hu (AList.not_mem_empty u)
  | connect sys userId conn _ hne hex ih =>
    obtain ⟨ih1, ih2⟩ := ih
    refine ⟨?_, fun he => ⟨?_, ?_⟩⟩
    · intro u hu
      simp only [step_connect_clients _ _ _ hne, AList.mem_insert] at hu
      rcases hu with rfl | hu
      · exact ⟨_, List.mem_cons_self _ _, rfl⟩
      · obtain ⟨x, hx, hxu⟩ := ih1 u hu
        exact ⟨x, List.mem_cons_of_mem _ hx, hxu⟩
    · simp only [List.map_cons, List.nodup_cons]
      refine ⟨?_, (ih2 he).1⟩
      intro hmem
      obtain ⟨x, hx, hxu⟩ := List.mem_map.1 hmem
      exact hex he x hx hxu
    · intro x hx
      simp only [step_connect_clients _ _ _ hne, AList.mem_insert]
      rcases List.mem_cons.1 hx with rfl | hx
      · exact Or.inl rfl
      · exact Or.inr ((ih2 he).2 x hx)
  | frame sys x f now _ _ ih =>
    simpa only [step_frame_clients] using ih
  | disconnect sys x _ hx ih =>
    obtain ⟨ih1, ih2⟩ := ih
    refine ⟨?_, fun he => ⟨?_, ?_⟩⟩
    · intro u hu
      simp only [step_disconnect_clients, AList.mem_erase] at hu
      obtain ⟨y, hy, hyu⟩ := ih1 u hu.2
      refine ⟨y, ?_, hyu⟩
      apply (List.mem_erase_of_ne ?_).2 hy
      rintro rfl
      exact hu.1 hyu.symm
    · exact (ih2 he).1.sublist ((List.erase_sublist x sys.sessions).map Session.userId)
    · intro y hy
      simp only [step_disconnect_clients, AList.mem_erase]
      have hnd : sys.sessions.Nodup := List.Nodup.of_map _ (ih2 he).1
      have hy' := (hnd.mem_erase_iff).1 hy
      refine ⟨?_, (ih2 he).2 y hy'.2⟩
      intro hid
      exact hy'.1 (List.inj_on_of_nodup_map (ih2 he).1 hy'.2 hx hid)

theorem run_staleDeregistration (exclusive : Bool) (h : exclusive = false) :
    Run exclusive staleDeregistration := by
  have h0 : Run exclusive { state := State.init, sessions := [] } := Run.init
  have h1 := Run.connect _ "u" 1 h0 (by decide) (by simp [h])
  have h2 := Run.connect _ "u" 2 h1 (by decide) (by simp [h])
  exact Run.disconnect _ { userId := "u", conn := 1 } h2 (by simp)

theorem run_singleSession (exclusive : Bool) : Run exclusive singleSession :=
  Run.connect _ "u" 1 Run.init (by decide) (by simp)

/-- C8, counterexample. After "u" connects on channel 1, connects again on channel 2 and
the first session leaves, a session for "u" is still in its read loop but "u" is not a key
of `clients`. -/
theorem stale_deregistration_breaks_iff :
    Run false staleDeregistration ∧
    (∃ x ∈ staleDeregistration.sessions, x.userId = "u") ∧
    "u" ∉ staleDeregistration.state.clients := by
  refine ⟨run_staleDeregistration false rfl, ⟨_, List.mem_singleton.2 rfl, rfl⟩, ?_⟩
  apply AList.lookup_eq_none.1
  decide

/-- C8, amended. In every system reached by session connects (non-empty identifier), session
disconnects and handler steps, every key of `clients` has a session for that identifier
that has connected and not yet disconnected.  Conversely, in runs where no session connects
for an identifier that already has a session in its read loop, every identifier with such a
session is a key of `clients`. -/
theorem clients_key_sessions (exclusive : Bool) (sys : System) (h : Run exclusive sys)
    (u : String) :
    (u ∈ sys.state.clients → ∃ x ∈ sys.sessions, x.userId = u) ∧
    (exclusive = true → ((∃ x ∈ sys.sessions, x.userId = u) ↔ u ∈ sys.state.clients)) := by
  obtain ⟨h1, h2⟩ := run_invariant exclusive sys h
  refine ⟨h1 u, fun he => ⟨?_, h1 u⟩⟩
  rintro ⟨x, hx, rfl⟩
  exact (h2 he).2 x hx

/-- Instance of the amended C8 at the exclusive run in which "u" connects once. -/
theorem clients_key_sessions_witness :
    ("u" ∈ singleSession.state.clients → ∃ x ∈ singleSession.sessions, x.userId = "u") ∧
    (true = true →
      ((∃ x ∈ singleSession.sessions, x.userId = "u") ↔ "u" ∈ singleSession.state.clients)) :=
  clients_key_sessions true singleSession (run_singleSession true) "u"

/-! ## The chat handler (C9) -/

/-- C9. For every state and every decoded chat payload (from, to, message), the chat handler
appends to the log the message built from the payload with the current counter as id and
read = false, leaves the registry as it was, and makes at most one write: exactly one, a
chat envelope carrying that stored message, to the channel registered for `to` when there
is one, and none when `to` is not registered, the message staying in the store. -/
theorem handleChat_delivery (s : State) (p : ChatPayload) (now : Time) :
    (handleChat (some p) now s).1.allMessages
      = s.allMessages ++
        [{ ID := s.messageID, From := p.From, To := p.To, Text := p.Message,
           Read := false, Timestamp := now }] ∧
    (handleChat (some p) now s).1.clients = s.clients ∧
    (handleChat (some p) now s).2.length ≤ 1 ∧
    (∀ toConn, s.clients.lookup p.To = some toConn →
      (handleChat (some p) now s).2
        = [{ conn := toConn,
             env := { Event := "chat",
                      Data := .message
                        { ID := s.messageID, From := p.From, To := p.To, Text := p.Message,
                          Read := false, Timestamp := now } } }]) ∧
    (s.clients.lookup p.To = none →
      (handleChat (some p) now s).2 = [] ∧
      ({ ID := s.messageID, From := p.From, To := p.To, Text := p.Message,
         Read := false, Timestamp := now } : Message)
        ∈ (handleChat (some p) now s).1.allMessages) := by
  refine ⟨by rw [handleChat_fst]; rfl, by rw [handleChat_fst]; rfl, ?_, ?_, ?_⟩
  · unfold handleChat appendMessage
    simp only
    split <;> simp
  · intro toConn h
    unfold handleChat appendMessage
    simp only [h]
  · intro h
    unfold handleChat appendMessage
    simp only [h]
    simp

/-! ## Stored messages are never removed and read flags never reset (C10) -/

/-- C10. For every state and every single atomic step, a message stored at some position
before the step is stored at the same position after it with the same id, from, to, text and
timestamp; a read flag that was true stays true; and a read flag differs after the step only
when the step is the read handler with a decoded payload. -/
theorem step_keeps_messages (s : State) (a : Action) (i : Nat) (m : Message)
    (hm : s.allMessages[i]? = some m) :
    ∃ m', (step s a).1.allMessages[i]? = some m' ∧
      m'.ID = m.ID ∧ m'.From = m.From ∧ m'.To = m.To ∧ m'.Text = m.Text ∧
      m'.Timestamp = m.Timestamp ∧
      (m.Read = true → m'.Read = true) ∧
      (m'.Read ≠ m.Read → ∃ c u p now, a = .frame c u (.read (some p)) now) := by
  have hlt : i < s.allMessages.length := by
    by_contra hge
    rw [List.getElem?_eq_none (by omega)] at hm
    cases hm
  rcases step_log s a with ⟨h1, -⟩ | ⟨c, u, p, now, -, h1, -⟩ | ⟨c, u, p, now, ha, h1, -⟩
  · exact ⟨m, by rw [h1]; exact hm, rfl, rfl, rfl, rfl, rfl, id, fun h => absurd rfl h⟩
  · refine ⟨m, ?_, rfl, rfl, rfl, rfl, rfl, id, fun h => absurd rfl h⟩
    rw [h1, List.getElem?_append_left hlt]
    exact hm
  · refine ⟨markOne p.From p.To m, ?_, ?_⟩
    · rw [h1, markRead_eq_map]; simp [hm]
    · unfold markOne
      by_cases hc : m.From = p.From ∧ m.To = p.To
      · rw [if_pos hc]
        exact ⟨rfl, rfl, rfl, rfl, rfl, fun _ => rfl, fun _ => ⟨c, u, p, now, ha⟩⟩
      · rw [if_neg hc]
        exact ⟨rfl, rfl, rfl, rfl, rfl, id, fun _ => ⟨c, u, p, now, ha⟩⟩

/-- Instance of C10 at a log holding one message from "a" to "b" and the read step for
that pair. -/
theorem step_keeps_messages_witness :
    ∃ m', (step
        { State.init with
          messageID := 2,
          allMessages :=
            [{ ID := 1, From := "a", To := "b", Text := "hi", Read := false, Timestamp := 7 }] }
        (.frame 1 "b" (.read (some { From := "a", To := "b" })) 9)).1.allMessages[0]? = some m' ∧
      m'.ID = 1 ∧ m'.From = "a" ∧ m'.To = "b" ∧ m'.Text = "hi" ∧ m'.Timestamp = 7 ∧
      (false = true → m'.Read = true) ∧
      (m'.Read ≠ false → ∃ c u p now,
        Action.frame 1 "b" (.read (some { From := "a", To := "b" })) 9
          = .frame c u (.read (some p)) now) :=
  step_keeps_messages
    { State.init with
      messageID := 2,
      allMessages :=
        [{ ID := 1, From := "a", To := "b", Text := "hi", Read := false, Timestamp := 7 }] }
    (.frame 1 "b" (.read (some { From := "a", To := "b" })) 9) 0
    { ID := 1, From := "a", To := "b", Text := "hi", Read := false, Timestamp := 7 } rfl

/-! ## The append of the chat handler (C11) -/

/-- C12. For every store and all users A and B, after the read handler with the pair (A, B)
the unread list of B holds no message with from = A; every stored message from A to B is,
with read = true, a member of the history of (A, B), and every member of that history sent
from A to B has read = true.  Scenario: from the empty store, the chat {from "a", to "b",
message "hi"} stores a message with id 1 and read = false; after the read handler with
("a", "b") the unread list of "b" is empty and the history of ("a", "b") is that single
message with id 1 and read = true. -/
theorem read_then_queries (s : State) (A B : String) (now : Time) :
    (∀ m ∈ unreadFor B (handleRead (some { From := A, To := B }) s).1.allMessages,
      m.From ≠ A) ∧
    (∀ m ∈ s.allMessages, m.From = A → m.To = B →
      { m with Read := true }
        ∈ history A B (handleRead (some { From := A, To := B }) s).1.allMessages) ∧
    (∀ m ∈ history A B (handleRead (some { From := A, To := B }) s).1.allMessages,
      m.From = A → m.To = B → m.Read = true) ∧
    (handleChat (some { From := "a", To := "b", Message := "hi" }) now State.init).1.allMessages
      = [{ ID := 1, From := "a", To := "b", Text := "hi", Read := false, Timestamp := now }] ∧
    unreadFor "b"
        (handleRead (some { From := "a", To := "b" })
          (handleChat (some { From := "a", To := "b", Message := "hi" })
            now State.init).1).1.allMessages = [] ∧
    history "a" "b"
        (handleRead (some { From := "a", To := "b" })
          (handleChat (some { From := "a", To := "b", Message := "hi" })
            now State.init).1).1.allMessages
      = [{ ID := 1, From := "a", To := "b", Text := "hi", Read := true, Timestamp := now }] := by
  have hlog : (handleRead (some { From := A, To := B }) s).1.allMessages
      = s.allMessages.map (markOne A B) := by
    rw [handleRead_fst]; exact markRead_eq_map A B _
  refine ⟨?_, ?_, ?_, ?_, ?_, ?_⟩
  · intro m hm hfrom
    rw [hlog, unreadFor_eq_filter] at hm
    simp only [List.mem_filter, List.mem_map, decide_eq_true_eq] at hm
    obtain ⟨⟨m0, -, rfl⟩, hto, hread⟩ := hm
    unfold markOne at hfrom hto hread
    by_cases hc : m0.From = A ∧ m0.To = B
    · rw [if_pos hc] at hread
      cases hread
    · rw [if_neg hc] at hfrom hto
      exact hc ⟨hfrom, hto⟩
  · intro m hm hfrom hto
    rw [hlog, history_eq_filter]
    simp only [List.mem_filter, List.mem_map, decide_eq_true_eq]
    refine ⟨⟨m, hm, ?_⟩, Or.inl ⟨hfrom, hto⟩⟩
    simp [markOne, hfrom, hto]
  · intro m hm hfrom hto
    rw [hlog, history_eq_filter] at hm
    simp only [List.mem_filter, List.mem_map, decide_eq_true_eq] at hm
    obtain ⟨⟨m0, -, rfl⟩, -⟩ := hm
    unfold markOne at hfrom hto ⊢
    by_cases hc : m0.From = A ∧ m0.To = B
    · rw [if_pos hc]
    · rw [if_neg hc] at hfrom hto
      exact absurd ⟨hfrom, hto⟩ hc
  · rw [handleChat_fst]; rfl
  · rw [handleRead_fst, handleChat_fst, unreadFor_eq_filter, markRead_eq_map]
    simp [appendMessage, State.init, markOne]
  · rw [handleRead_fst, handleChat_fst, history_eq_filter, markRead_eq_map]
    simp [appendMessage, State.init, markOne]

/-! ## Deregistration (C13) -/

/-- C13. For every registry and every user U, the deregistration done at session end (the
state change of a disconnect step) removes U's entry of `clients` and of `onlineUsers`
whatever channel U maps to, and leaves the entries of every other user, the log and the
counter unchanged.  In particular after U registers with C1, registers again with C2 and the
deregistration of the first session runs, the lookup of U gives nothing; in the run where "u"
does so, the second session is still in its read loop. -/
theorem deregister_by_identifier (s : State) (U : String) (C1 C2 : Conn) :
    (step s (.disconnect U)).1 = deregister U s ∧
    (deregister U s).clients.lookup U = none ∧
    (deregister U s).onlineUsers.lookup U = none ∧
    (∀ u, u ≠ U →
      (deregister U s).clients.lookup u = s.clients.lookup u ∧
      (deregister U s).onlineUsers.lookup u = s.onlineUsers.lookup u) ∧
    (deregister U s).allMessages = s.allMessages ∧
    (deregister U s).messageID = s.messageID ∧
    (register U C2 (register U C1 s)).clients.lookup U = some C2 ∧
    (deregister U (register U C2 (register U C1 s))).clients.lookup U = none ∧
    (deregister U (register U C2 (register U C1 s))).onlineUsers.lookup U = none ∧
    (Run false staleDeregistration ∧
      ({ userId := "u", conn := 2 } : Session) ∈ staleDeregistration.sessions ∧
      staleDeregistration.state.clients.lookup "u" = none) := by
  refine ⟨rfl, ?_, ?_, ?_, rfl, rfl, ?_, ?_, ?_, ?_⟩
  · simp [deregister]
  · simp [deregister]
  · intro u hu
    simp [deregister, AList.lookup_erase_ne hu]
  · simp [register]
  · simp [deregister]
  · simp [deregister]
  · exact ⟨run_staleDeregistration false rfl, List.mem_singleton.2 rfl, by decide⟩

/-! ## The typing handler (C14) -/

/-- C14. For every state and every decoded typing payload (from, to), the typing handler
returns the state unchanged (log, counter and both maps).  When `to` is not registered it
makes no write, and the handler has no error result.  When `to` is registered it makes
exactly one write, to the channel registered for `to`: a typing envelope whose payload is the
one-entry map holding only `from`. -/
theorem handleTyping_effect (s : State) (p : TypingPayload) :
    (handleTyping (some p) s).1 = s ∧
    (s.clients.lookup p.To = none → (handleTyping (some p) s).2 = []) ∧
    (∀ toConn, s.clients.lookup p.To = some toConn →
      (handleTyping (some p) s).2
        = [{ conn := toConn,
             env := { Event := "typing", Data := .stringMap [("from", p.From)] } }]) := by
  refine ⟨handleTyping_fst _ _, ?_, ?_⟩
  · intro h
    simp only [handleTyping, h]
  · intro toConn h
    simp only [handleTyping, h]

/-! ## The write of the read handler (C15) -/

/-- C15. For every state and every decoded read payload (from, to), the read handler, after
marking the messages, makes exactly one write when `from` is registered: a read envelope
echoing the payload {from, to}, to the channel registered for `from`, whatever channel `to`
has; it makes no write when `from` is not registered.  The marking leaves the registry as
it was. -/
theorem handleRead_notifies_sender (s : State) (p : ReadPayload) :
    (handleRead (some p) s).1.allMessages = markRead p.From p.To s.allMessages ∧
    (handleRead (some p) s).1.clients = s.clients ∧
    (∀ fromConn, s.clients.lookup p.From = some fromConn →
      (handleRead (some p) s).2
        = [{ conn := fromConn, env := { Event := "read", Data := .readPayload p } }]) ∧
    (s.clients.lookup p.From = none → (handleRead (some p) s).2 = []) := by
  refine ⟨by rw [handleRead_fst], by rw [handleRead_fst], ?_, ?_⟩
  · intro fromConn h
    simp only [handleRead, h]
  · intro h
    simp only [handleRead, h]

/-! ## Registration before broadcast (C16) -/

theorem broadcastEvent_conns (event : String) (payload : Data) (s : State) :
    (broadcastEvent event payload s).map Write.conn = s.clients.entries.map (fun e => e.2) := by
  unfold broadcastEvent
  rw [List.map_map]
  rfl

theorem broadcastEvent_env (event : String) (payload : Data) (s : State) :
    ∀ w ∈ broadcastEvent event payload s, w.env = { Event := event, Data := payload } := by
  intro w hw
  unfold broadcastEvent at hw
  obtain ⟨e, -, rfl⟩ := List.mem_map.1 hw
  rfl

theorem broadcastEvent_length (event : String) (payload : Data) (s : State) :
    (broadcastEvent event payload s).length = s.clients.keys.length := by
  unfold broadcastEvent AList.keys List.keys
  simp

theorem broadcastEvent_mem (event : String) (payload : Data) (s : State) (u : String)
    (c : Conn) (h : s.clients.lookup u = some c) :
    ({ conn := c, env := { Event := event, Data := payload } } : Write)
      ∈ broadcastEvent event payload s := by
  unfold broadcastEvent
  have he : (⟨u, c⟩ : Sigma (fun _ : String => Conn)) ∈ s.clients.entries :=
    AList.mem_lookup_iff.1 (by rw [h]; exact rfl)
  exact List.mem_map.2 ⟨⟨u, c⟩, he, rfl⟩

theorem broadcastEvent_conn_registered (event : String) (payload : Data) (s : State) :
    ∀ w ∈ broadcastEvent event payload s, ∃ u, s.clients.lookup u = some w.conn := by
  intro w hw
  unfold broadcastEvent at hw
  obtain ⟨e, he, rfl⟩ := List.mem_map.1 hw
  refine ⟨e.1, ?_⟩
  have : e.2 ∈ s.clients.lookup e.1 := AList.mem_lookup_iff.2 he
  exact this

/-- C16. For every state, a connect step for a (non-empty) user U on channel C first maps U
to C and then broadcasts over the resulting registry: it makes one write per entry of that
registry, each the online envelope {userId: U}, and C receives one; a disconnect step for U
first removes U's entry and then broadcasts over what remains: one write per remaining
entry, each the offline envelope {userId: U}, and no write goes to the channel U was
mapped to unless another user is mapped to that channel too. -/
theorem register_before_broadcast (s : State) (U : String) (C : Conn) :
    (U ≠ "" →
      step s (.connect U C)
        = (register U C s,
           broadcastEvent "online" (.stringMap [("userId", U)]) (register U C s)) ∧
      (register U C s).clients.lookup U = some C ∧
      ((step s (.connect U C)).2.map Write.conn).Perm
        ((register U C s).clients.entries.map (fun e => e.2)) ∧
      (step s (.connect U C)).2.length = (register U C s).clients.keys.length ∧
      (∀ w ∈ (step s (.connect U C)).2,
        w.env = { Event := "online", Data := .stringMap [("userId", U)] }) ∧
      ({ conn := C, env := { Event := "online", Data := .stringMap [("userId", U)] } } : Write)
        ∈ (step s (.connect U C)).2) ∧
    (step s (.disconnect U)
      = (deregister U s,
         broadcastEvent "offline" (.stringMap [("userId", U)]) (deregister U s)) ∧
    U ∉ (deregister U s).clients ∧
    ((step s (.disconnect U)).2.map Write.conn).Perm
      ((deregister U s).clients.entries.map (fun e => e.2)) ∧
    (step s (.disconnect U)).2.length = (deregister U s).clients.keys.length ∧
    (∀ w ∈ (step s (.disconnect U)).2,
      w.env = { Event := "offline", Data := .stringMap [("userId", U)] }) ∧
    (∀ c, s.clients.lookup U = some c → (∀ u, u ≠ U → s.clients.lookup u ≠ some c) →
      ∀ w ∈ (step s (.disconnect U)).2, w.conn ≠ c)) := by
  constructor
  · intro hU
    have hstep : step s (.connect U C)
        = (register U C s,
           broadcastEvent "online" (.stringMap [("userId", U)]) (register U C s)) := by
      simp [step, handleWebSocketEnter, hU]
    have hl : (register U C s).clients.lookup U = some C := by simp [register]
    rw [hstep]
    refine ⟨rfl, hl, ?_, ?_, ?_, ?_⟩
    · rw [broadcastEvent_conns]
    · exact broadcastEvent_length _ _ _
    · exact broadcastEvent_env _ _ _
    · exact broadcastEvent_mem _ _ _ U C hl
  · have hstep : step s (.disconnect U)
        = (deregister U s,
           broadcastEvent "offline" (.stringMap [("userId", U)]) (deregister U s)) := rfl
    rw [hstep]
    refine ⟨rfl, ?_, ?_, ?_, ?_, ?_⟩
    · simp [deregister, AList.mem_erase]
    · rw [broadcastEvent_conns]
    · exact broadcastEvent_length _ _ _
    · exact broadcastEvent_env _ _ _
    · intro c _ hother w hw hwc
      obtain ⟨u, hu⟩ := broadcastEvent_conn_registered _ _ _ w hw
      have huU : u ≠ U := by
        rintro rfl
        simp [deregister] at hu
      have hu' : s.clients.lookup u = some w.conn := by
        simpa [deregister, AList.lookup_erase_ne huU] using hu
      exact hother u huU (by rw [hu', hwc])

/-- Instance of C16 at the state where "v" is connected on channel 1: the connect of "u" on
channel 2 writes the online envelope to channels 2 and 1, and the following disconnect of
"u" writes the offline envelope to channel 1 only. -/
theorem register_before_broadcast_witness :
    (step (runFrom State.init [.connect "v" 1]) (.connect "u" 2)).2
      = [{ conn := 2, env := { Event := "online", Data := .stringMap [("userId", "u")] } },
         { conn := 1, env := { Event := "online", Data := .stringMap [("userId", "u")] } }] ∧
    (step (runFrom State.init [.connect "v" 1, .connect "u" 2]) (.disconnect "u")).2
      = [{ conn := 1, env := { Event := "offline", Data := .stringMap [("userId", "u")] } }] ∧
    (∀ w ∈ (step (runFrom State.init [.connect "v" 1]) (.connect "u" 2)).2,
      w.env = { Event := "online", Data := .stringMap [("userId", "u")] }) :=
  ⟨by decide, by decide,
    ((register_before_broadcast (runFrom State.init [.connect "v" 1]) "u" 2).1
      (by decide)).2.2.2.2.1⟩

/-! ## The two presence maps agree (C18) -/

theorem step_frame_onlineUsers (s : State) (c : Conn) (u : String) (f : Frame) (now : Time) :
    (step s (.frame c u f now)).1.onlineUsers = s.onlineUsers := by
  cases f with
  | undecodable => rfl
  | other e => rfl
  | getNotif => rfl
  | getChats data => simp [step, dispatch, handleGetChats_fst]
  | typing data => simp [step, dispatch, handleTyping_fst]
  | chat data =>
    cases data with
    | none => rfl
    | some p => simp [step, dispatch, handleChat_fst, appendMessage]
  | read data =>
    cases data with
    | none => rfl
    | some p => simp [step, dispatch, handleRead_fst]

theorem presence_step (s : State) (a : Action)
    (h : ∀ u, s.onlineUsers.lookup u = (s.clients.lookup u).map (fun _ => true)) :
    ∀ u, (step s a).1.onlineUsers.lookup u
      = ((step s a).1.clients.lookup u).map (fun _ => true) := by
  intro u
  cases a with
  | connect u0 c =>
    rw [step_connect_fst]
    by_cases h0 : u0 = ""
    · rw [if_pos h0]; exact h u
    · rw [if_neg h0]
      by_cases hu : u = u0
      · subst hu; simp [register]
      · simp [register, AList.lookup_insert_ne hu, h u]
  | disconnect u0 =>
    by_cases hu : u = u0
    · subst hu; simp [step, handleWebSocketExit, deregister]
    · simp [step, handleWebSocketExit, deregister, AList.lookup_erase_ne hu, h u]
  | frame c u0 f now =>
    rw [step_frame_onlineUsers, step_frame_clients]
    exact h u

theorem presence_runFrom (as : List Action) (s : State)
    (h : ∀ u, s.onlineUsers.lookup u = (s.clients.lookup u).map (fun _ => true)) :
    ∀ u, (runFrom s as).onlineUsers.lookup u
      = ((runFrom s as).clients.lookup u).map (fun _ => true) := by
  induction as generalizing s with
  | nil => exact h
  | cons a as ih => exact ih (step s a).1 (presence_step s a h)

/-- C18. In every state reached from the initial state (both maps empty) by a finite
sequence of connect, disconnect and handler steps, an identifier is a key of `clients`
exactly when `onlineUsers` marks it true, and `onlineUsers` has no entry with value false. -/
theorem presence_maps_agree (as : List Action) :
    (∀ u, u ∈ (runFrom State.init as).clients
      ↔ (runFrom State.init as).onlineUsers.lookup u = some true) ∧
    (∀ u, (runFrom State.init as).onlineUsers.lookup u ≠ some false) ∧
    (runFrom State.init as).clients.keys.Perm (runFrom State.init as).onlineUsers.keys := by
  have h := presence_runFrom as State.init (by intro u; rfl)
  refine ⟨?_, ?_, ?_⟩
  · intro u
    rw [h u, ← AList.lookup_isSome]
    cases (runFrom State.init as).clients.lookup u <;> simp
  · intro u
    rw [h u]
    cases (runFrom State.init as).clients.lookup u <;> simp
  · apply (List.perm_ext_iff_of_nodup (AList.keys_nodup _) (AList.keys_nodup _)).2
    intro u
    rw [← AList.mem_keys, ← AList.mem_keys, ← AList.lookup_isSome, ← AList.lookup_isSome, h u]
    cases (runFrom State.init as).clients.lookup u <;> simp

/-! ## Interleaved chat handlers (C17) -/

theorem set_getElem?_same (l : List ChatThread) (i : Nat) (t t' : ChatThread)
    (h : l[i]? = some t) : (l.set i t')[i]? = some t' := by
  have hlt : i < l.length := by
    by_contra hge
    rw [List.getElem?_eq_none (by omega)] at h
    cases h
  simp [List.getElem?_set, hlt]

theorem set_getElem?_ne (l : List ChatThread) (i j : Nat) (t' : ChatThread) (h : j ≠ i) :
    (l.set i t')[j]? = l[j]? := by
  have : i ≠ j := fun e => h e.symm
  simp [List.getElem?_set, this]

/-- What one statement of call `i` does: the call advances by one statement, keeps its
payload and instant, and touches the shared variables and the lock as its statement says. -/
theorem chatStep_spec (c c' : Conc) (i : Nat) (h : chatStep c i = some c') :
    ∃ t t', c.threads[i]? = some t ∧ c'.threads = c.threads.set i t' ∧
      t'.p = t.p ∧ t'.now = t.now ∧ t'.pc = t.pc + 1 ∧ t.pc ≤ 8 ∧
      c'.shared.clients = c.shared.clients ∧ c'.shared.onlineUsers = c.shared.onlineUsers ∧
      (t.pc = 0 → c.writer = none ∧ c'.writer = some i ∧ c'.shared = c.shared ∧
        t'.msg = t.msg) ∧
      (t.pc = 1 → c'.writer = c.writer ∧ c'.shared = c.shared ∧
        t'.msg = chatMessage t.p t.now c.shared.messageID) ∧
      (t.pc = 2 → c'.writer = c.writer ∧ c'.shared.messageID = c.shared.messageID + 1 ∧
        c'.shared.allMessages = c.shared.allMessages ∧ t'.msg = t.msg) ∧
      (t.pc = 3 → c'.writer = c.writer ∧ c'.shared.messageID = c.shared.messageID ∧
        c'.shared.allMessages = c.shared.allMessages ++ [t.msg] ∧ t'.msg = t.msg) ∧
      (t.pc = 4 → c'.writer = none ∧ c'.shared = c.shared ∧ t'.msg = t.msg) ∧
      (5 ≤ t.pc → c'.writer = c.writer ∧ c'.shared = c.shared ∧ t'.msg = t.msg) := by
  unfold chatStep at h
  cases hti : c.threads[i]? with
  | none => rw [hti] at h; cases h
  | some t =>
    rw [hti] at h
    simp only at h
    split at h
    · split at h
      · rename_i hpc hg
        cases h
        exact ⟨t, _, rfl, rfl, rfl, rfl, by simp [hpc], by simp [hpc], rfl, rfl,
          by simp [hg.1], by simp [hpc], by simp [hpc], by simp [hpc], by simp [hpc],
          by simp [hpc]⟩
      · cases h
    · rename_i hpc
      cases h
      exact ⟨t, _, rfl, rfl, rfl, rfl, by simp [hpc], by simp [hpc], rfl, rfl,
        by simp [hpc], by simp, by simp [hpc], by simp [hpc], by simp [hpc], by simp [hpc]⟩
    · rename_i hpc
      cases h
      exact ⟨t, _, rfl, rfl, rfl, rfl, by simp [hpc], by simp [hpc], rfl, rfl,
        by simp [hpc], by simp [hpc], by simp, by simp [hpc], by simp [hpc], by simp [hpc]⟩
    · rename_i hpc
      cases h
      exact ⟨t, _, rfl, rfl, rfl, rfl, by simp [hpc], by simp [hpc], rfl, rfl,
        by simp [hpc], by simp [hpc], by simp [hpc], by simp, by simp [hpc], by simp [hpc]⟩
    · rename_i hpc
      cases h
      exact ⟨t, _, rfl, rfl, rfl, rfl, by simp [hpc], by simp [hpc], rfl, rfl,
        by simp [hpc], by simp [hpc], by simp [hpc], by simp [hpc], by simp, by simp [hpc]⟩
    · split at h
      · rename_i hpc hg
        cases h
        exact ⟨t, _, rfl, rfl, rfl, rfl, by simp [hpc], by simp [hpc], rfl, rfl,
          by simp [hpc], by simp [hpc], by simp [hpc], by simp [hpc], by simp [hpc],
          by simp⟩
      · cases h
    · rename_i hpc
      cases h
      exact ⟨t, _, rfl, rfl, rfl, rfl, by simp [hpc], by simp [hpc], rfl, rfl,
        by simp [hpc], by simp [hpc], by simp [hpc], by simp [hpc], by simp [hpc], by simp⟩
    · rename_i hpc
      cases h
      exact ⟨t, _, rfl, rfl, rfl, rfl, by simp [hpc], by simp [hpc], rfl, rfl,
        by simp [hpc], by simp [hpc], by simp [hpc], by simp [hpc], by simp [hpc], by simp⟩
    · rename_i hpc
      cases h
      exact ⟨t, _, rfl, rfl, rfl, rfl, by simp [hpc], by simp [hpc], rfl, rfl,
        by simp [hpc], by simp [hpc], by simp [hpc], by simp [hpc], by simp [hpc], by simp⟩
    · cases h

theorem serial_snoc (s0 : State) (calls : List (ChatPayload × Time)) (order : List Nat)
    (i : Nat) (p : ChatPayload) (now : Time) (h : calls[i]? = some (p, now)) :
    serial s0 calls (order ++ [i]) = (handleChat (some p) now (serial s0 calls order)).1 := by
  unfold serial
  rw [List.foldl_append]
  simp [h]

theorem chatInv_step (s0 : State) (calls : List (ChatPayload × Time)) (c c' : Conc)
    (order : List Nat) (i : Nat) (h : chatStep c i = some c') (inv : ChatInv s0 calls c order) :
    ∃ order', ChatInv s0 calls c' order' := by
  obtain ⟨t, t', hti, hth, hp, hnow, hpc, hle, hcl, hon, h0, h1, h2, h3, h4, h5⟩ :=
    chatStep_spec c c' i h
  have hsame : c'.threads[i]? = some t' := by
    rw [hth]; exact set_getElem?_same _ _ _ _ hti
  have hsplit : ∀ (j : Nat) (tj : ChatThread), c'.threads[j]? = some tj →
      (j = i ∧ tj = t') ∨ (j ≠ i ∧ c.threads[j]? = some tj) := by
    intro j tj htj
    by_cases hj : j = i
    · subst hj
      rw [hsame] at htj
      exact Or.inl ⟨rfl, (Option.some.inj htj).symm⟩
    · rw [hth, set_getElem?_ne _ _ _ _ hj] at htj
      exact Or.inr ⟨hj, htj⟩
  have hwi : c.writer = some i ↔ 1 ≤ t.pc ∧ t.pc ≤ 4 := inv.mutex i t hti
  have hexcl : ∀ (j : Nat) (tj : ChatThread), j ≠ i → c.threads[j]? = some tj →
      (c.writer = some i ∨ c.writer = none) → ¬ (1 ≤ tj.pc ∧ tj.pc ≤ 4) := by
    intro j tj hj htj hw hcs
    have hwj := (inv.mutex j tj htj).2 hcs
    rcases hw with hw | hw
    · rw [hw] at hwj
      exact hj (Option.some.inj hwj).symm
    · rw [hw] at hwj
      cases hwj
  have hlen : c'.threads.length = calls.length := by
    rw [hth, List.length_set]; exact inv.len
  have hparams : ∀ (j : Nat) (tj : ChatThread), c'.threads[j]? = some tj →
      calls[j]? = some (tj.p, tj.now) := by
    intro j tj htj
    rcases hsplit j tj htj with ⟨rfl, rfl⟩ | ⟨_, hold⟩
    · rw [hp, hnow]; exact inv.params _ t hti
    · exact inv.params j tj hold
  have hmem_same : (4 ≤ t'.pc ↔ 4 ≤ t.pc) →
      ∀ j, j ∈ order ↔ ∃ tj, c'.threads[j]? = some tj ∧ 4 ≤ tj.pc := by
    intro hiff j
    rw [inv.mem_order j]
    by_cases hj : j = i
    · subst hj
      constructor
      · rintro ⟨tj, htj, h4'⟩
        rw [hti] at htj
        cases htj
        exact ⟨t', hsame, hiff.2 h4'⟩
      · rintro ⟨tj, htj, h4'⟩
        rw [hsame] at htj
        cases htj
        exact ⟨t, hti, hiff.1 h4'⟩
    · rw [hth, set_getElem?_ne _ _ _ _ hj]
  rcases (by omega : t.pc = 0 ∨ t.pc = 1 ∨ t.pc = 2 ∨ t.pc = 3 ∨ t.pc = 4 ∨ 5 ≤ t.pc)
    with e | e | e | e | e | e
  · -- line 126: the lock is taken for writing
    obtain ⟨hw, hw', hsh, hmsg⟩ := h0 e
    refine ⟨order, ⟨hlen, hparams, ?_, inv.nodup, hmem_same (by omega), ?_, hcl.trans inv.clients,
      hon.trans inv.online, ?_, ?_, ?_⟩⟩
    · intro j tj htj
      rcases hsplit j tj htj with ⟨rfl, rfl⟩ | ⟨hj, hold⟩
      · rw [hw']; simp; omega
      · rw [hw']
        have := hexcl j tj hj hold (Or.inr hw)
        constructor
        · intro hji; exact absurd (Option.some.inj hji).symm hj
        · intro hcs; exact absurd hcs this
    · rw [hsh]; exact inv.log
    · intro j tj htj h3'
      rcases hsplit j tj htj with ⟨rfl, rfl⟩ | ⟨hj, hold⟩
      · omega
      · rw [hsh]; exact inv.ctr3 j tj hold h3'
    · intro hno
      rw [hsh]
      apply inv.ctr
      intro j tj htj
      by_cases hj : j = i
      · subst hj; rw [hti] at htj; cases htj; omega
      · exact hno j tj (by rw [hth, set_getElem?_ne _ _ _ _ hj]; exact htj)
    · intro j tj htj h23
      rcases hsplit j tj htj with ⟨rfl, rfl⟩ | ⟨hj, hold⟩
      · omega
      · exact inv.msg j tj hold h23
  · -- lines 127-134: the message is built from the counter
    obtain ⟨hw', hsh, hmsg⟩ := h1 e
    have hw : c.writer = some i := hwi.2 (by omega)
    have hno3 : ∀ (j : Nat) (tj : ChatThread), c.threads[j]? = some tj → tj.pc ≠ 3 := by
      intro j tj htj h3'
      by_cases hj : j = i
      · subst hj; rw [hti] at htj; cases htj; omega
      · exact hexcl j tj hj htj (Or.inl hw) (by omega)
    refine ⟨order, ⟨hlen, hparams, ?_, inv.nodup, hmem_same (by omega), ?_, hcl.trans inv.clients,
      hon.trans inv.online, ?_, ?_, ?_⟩⟩
    · intro j tj htj
      rcases hsplit j tj htj with ⟨rfl, rfl⟩ | ⟨hj, hold⟩
      · rw [hw', hw]; simp; omega
      · rw [hw']; exact inv.mutex j tj hold
    · rw [hsh]; exact inv.log
    · intro j tj htj h3'
      rcases hsplit j tj htj with ⟨rfl, rfl⟩ | ⟨hj, hold⟩
      · omega
      · exact absurd h3' (hno3 j tj hold)
    · intro _
      rw [hsh]; exact inv.ctr hno3
    · intro j tj htj h23
      rcases hsplit j tj htj with ⟨rfl, rfl⟩ | ⟨hj, hold⟩
      · rw [hmsg, hp, hnow, inv.ctr hno3]
      · exact inv.msg j tj hold h23
  · -- line 135: the counter is incremented
    obtain ⟨hw', hctr, hlog, hmsg⟩ := h2 e
    have hw : c.writer = some i := hwi.2 (by omega)
    have hno3 : ∀ (j : Nat) (tj : ChatThread), c.threads[j]? = some tj → tj.pc ≠ 3 := by
      intro j tj htj h3'
      by_cases hj : j = i
      · subst hj; rw [hti] at htj; cases htj; omega
      · exact hexcl j tj hj htj (Or.inl hw) (by omega)
    refine ⟨order, ⟨hlen, hparams, ?_, inv.nodup, hmem_same (by omega), ?_, hcl.trans inv.clients,
      hon.trans inv.online, ?_, ?_, ?_⟩⟩
    · intro j tj htj
      rcases hsplit j tj htj with ⟨rfl, rfl⟩ | ⟨hj, hold⟩
      · rw [hw', hw]; simp; omega
      · rw [hw']; exact inv.mutex j tj hold
    · rw [hlog]; exact inv.log
    · intro j tj htj h3'
      rw [hctr, inv.ctr hno3]
    · intro hno
      exact absurd (by omega : t'.pc = 3) (hno i t' hsame)
    · intro j tj htj h23
      rcases hsplit j tj htj with ⟨rfl, rfl⟩ | ⟨hj, hold⟩
      · rw [hmsg, hp, hnow]; exact inv.msg _ t hti (Or.inl e)
      · exact inv.msg j tj hold h23
  · -- line 136: the message is appended
    obtain ⟨hw', hctr, hlog, hmsg⟩ := h3 e
    have hw : c.writer = some i := hwi.2 (by omega)
    have hcall := inv.params i t hti
    have hser := serial_snoc s0 calls order i t.p t.now hcall
    rw [handleChat_fst] at hser
    have hnot : i ∉ order := by
      intro hmem
      obtain ⟨ti, hti', h4'⟩ := (inv.mem_order i).1 hmem
      rw [hti] at hti'; cases hti'; omega
    have hnocs : ∀ (j : Nat) (tj : ChatThread), c'.threads[j]? = some tj →
        ¬ (tj.pc = 2 ∨ tj.pc = 3) := by
      intro j tj htj h23
      rcases hsplit j tj htj with ⟨rfl, rfl⟩ | ⟨hj, hold⟩
      · omega
      · exact hexcl j tj hj hold (Or.inl hw) (by omega)
    refine ⟨order ++ [i], ⟨hlen, hparams, ?_, ?_, ?_, ?_, hcl.trans inv.clients,
      hon.trans inv.online, ?_, ?_, ?_⟩⟩
    · intro j tj htj
      rcases hsplit j tj htj with ⟨rfl, rfl⟩ | ⟨hj, hold⟩
      · rw [hw', hw]; simp; omega
      · rw [hw']; exact inv.mutex j tj hold
    · exact List.Nodup.append inv.nodup (List.nodup_singleton i) (by simpa using hnot)
    · intro j
      rw [List.mem_append, List.mem_singleton, inv.mem_order j]
      by_cases hj : j = i
      · subst hj
        constructor
        · intro _; exact ⟨t', hsame, by omega⟩
        · intro _; exact Or.inr rfl
      · rw [hth, set_getElem?_ne _ _ _ _ hj]
        constructor
        · rintro (h' | h')
          · exact h'
          · exact absurd h' hj
        · intro h'; exact Or.inl h'
    · rw [hlog, hser, inv.log, inv.msg i t hti (Or.inr e)]
      rfl
    · intro j tj htj h3'
      exact absurd (Or.inr h3') (hnocs j tj htj)
    · intro _
      rw [hctr, hser, inv.ctr3 i t hti e]
      rfl
    · intro j tj htj h23
      exact absurd h23 (hnocs j tj htj)
  · -- line 137: the lock is released
    obtain ⟨hw', hsh, hmsg⟩ := h4 e
    have hw : c.writer = some i := hwi.2 (by omega)
    refine ⟨order, ⟨hlen, hparams, ?_, inv.nodup, hmem_same (by omega), ?_, hcl.trans inv.clients,
      hon.trans inv.online, ?_, ?_, ?_⟩⟩
    · intro j tj htj
      rcases hsplit j tj htj with ⟨rfl, rfl⟩ | ⟨hj, hold⟩
      · rw [hw']; simp; omega
      · rw [hw']
        have := hexcl j tj hj hold (Or.inl hw)
        constructor
        · intro hji; cases hji
        · intro hcs; exact absurd hcs this
    · rw [hsh]; exact inv.log
    · intro j tj htj h3'
      rcases hsplit j tj htj with ⟨rfl, rfl⟩ | ⟨hj, hold⟩
      · omega
      · rw [hsh]; exact inv.ctr3 j tj hold h3'
    · intro hno
      rw [hsh]
      apply inv.ctr
      intro j tj htj
      by_cases hj : j = i
      · subst hj; rw [hti] at htj; cases htj; omega
      · exact hno j tj (by rw [hth, set_getElem?_ne _ _ _ _ hj]; exact htj)
    · intro j tj htj h23
      rcases hsplit j tj htj with ⟨rfl, rfl⟩ | ⟨hj, hold⟩
      · omega
      · exact inv.msg j tj hold h23
  · -- lines 140-145: lookup under the read lock and the write
    obtain ⟨hw', hsh, hmsg⟩ := h5 e
    refine ⟨order, ⟨hlen, hparams, ?_, inv.nodup, hmem_same (by omega), ?_, hcl.trans inv.clients,
      hon.trans inv.online, ?_, ?_, ?_⟩⟩
    · intro j tj htj
      rcases hsplit j tj htj with ⟨rfl, rfl⟩ | ⟨hj, hold⟩
      · rw [hw']
        constructor
        · intro hwr; have := hwi.1 hwr; omega
        · intro hcs; omega
      · rw [hw']; exact inv.mutex j tj hold
    · rw [hsh]; exact inv.log
    · intro j tj htj h3'
      rcases hsplit j tj htj with ⟨rfl, rfl⟩ | ⟨hj, hold⟩
      · omega
      · rw [hsh]; exact inv.ctr3 j tj hold h3'
    · intro hno
      rw [hsh]
      apply inv.ctr
      intro j tj htj
      by_cases hj : j = i
      · subst hj; rw [hti] at htj; cases htj; omega
      · exact hno j tj (by rw [hth, set_getElem?_ne _ _ _ _ hj]; exact htj)
    · intro j tj htj h23
      rcases hsplit j tj htj with ⟨rfl, rfl⟩ | ⟨hj, hold⟩
      · omega
      · exact inv.msg j tj hold h23

theorem chatInv_start (s0 : State) (calls : List (ChatPayload × Time)) :
    ChatInv s0 calls (Conc.start s0 calls) [] := by
  have hget : ∀ (i : Nat) (t : ChatThread), (Conc.start s0 calls).threads[i]? = some t →
      t.pc = 0 ∧ calls[i]? = some (t.p, t.now) := by
    intro i t ht
    simp only [Conc.start, List.getElem?_map] at ht
    cases hc : calls[i]? with
    | none => rw [hc] at ht; cases ht
    | some x =>
      rw [hc] at ht
      cases ht
      exact ⟨rfl, rfl⟩
  refine ⟨by simp [Conc.start], fun i t ht => (hget i t ht).2, ?_, List.nodup_nil, ?_, rfl, rfl,
    rfl, ?_, fun _ => rfl, ?_⟩
  · intro i t ht
    have := (hget i t ht).1
    simp [Conc.start, this]
  · intro i
    constructor
    · intro h; cases h
    · rintro ⟨t, ht, h4⟩
      have := (hget i t ht).1
      omega
  · intro i t ht h3
    have := (hget i t ht).1
    omega
  · intro i t ht h23
    have := (hget i t ht).1
    omega

theorem chatInv_run (s0 : State) (calls : List (ChatPayload × Time)) (sched : List Nat)
    (c c' : Conc) (order : List Nat) (inv : ChatInv s0 calls c order)
    (h : chatRun c sched = some c') : ∃ order', ChatInv s0 calls c' order' := by
  induction sched generalizing c order with
  | nil =>
    simp only [chatRun] at h
    cases h
    exact ⟨order, inv⟩
  | cons i sched ih =>
    simp only [chatRun] at h
    cases hs : chatStep c i with
    | none => rw [hs] at h; cases h
    | some c1 =>
      rw [hs] at h
      obtain ⟨order1, inv1⟩ := chatInv_step s0 calls c c1 order i hs inv
      exact ih c1 order1 inv1 h

theorem State.eq_of_fields (s t : State) (h1 : s.messageID = t.messageID)
    (h2 : s.allMessages = t.allMessages) (h3 : s.clients = t.clients)
    (h4 : s.onlineUsers = t.onlineUsers) : s = t := by
  cases s; cases t
  simp only at h1 h2 h3 h4
  subst h1 h2 h3 h4
  rfl

theorem serial_maps (calls : List (ChatPayload × Time)) (order : List Nat) (s0 : State) :
    (serial s0 calls order).clients = s0.clients ∧
    (serial s0 calls order).onlineUsers = s0.onlineUsers := by
  induction order generalizing s0 with
  | nil => exact ⟨rfl, rfl⟩
  | cons i order ih =>
    have hcons : serial s0 calls (i :: order)
        = serial (match calls[i]? with
            | some x => (handleChat (some x.1) x.2 s0).1
            | none => s0) calls order := rfl
    rw [hcons]
    cases hc : calls[i]? with
    | none => exact ih s0
    | some x =>
      have h := ih (handleChat (some x.1) x.2 s0).1
      rw [handleChat_fst] at h
      simp only [handleChat_fst]
      exact h

/-- Every interleaved execution of any number of calls is serializable: once every call has
executed line 136, the shared variables are those of the serial execution of the atomic
handler in some order in which every call occurs exactly once. -/
theorem chatRun_serializable (s0 : State) (calls : List (ChatPayload × Time))
    (sched : List Nat) (c : Conc) (h : chatRun (Conc.start s0 calls) sched = some c)
    (hdone : ∀ t ∈ c.threads, 4 ≤ t.pc) :
    ∃ order, order.Perm (List.range calls.length) ∧ c.shared = serial s0 calls order := by
  obtain ⟨order, inv⟩ := chatInv_run s0 calls sched _ c [] (chatInv_start s0 calls) h
  refine ⟨order, ?_, ?_⟩
  · apply (List.perm_ext_iff_of_nodup inv.nodup (List.nodup_range _)).2
    intro i
    rw [inv.mem_order i, List.mem_range, ← inv.len]
    constructor
    · rintro ⟨t, ht, -⟩
      by_contra hge
      rw [List.getElem?_eq_none (by omega)] at ht
      cases ht
    · intro hlt
      refine ⟨c.threads[i], List.getElem?_eq_getElem hlt, hdone _ (List.getElem_mem hlt)⟩
  · have hno3 : ∀ (i : Nat) (t : ChatThread), c.threads[i]? = some t → t.pc ≠ 3 := by
      intro i t ht h3
      have := hdone t (List.getElem?_mem ht)
      omega
    have hm := serial_maps calls order s0
    exact State.eq_of_fields _ _ (inv.ctr hno3) inv.log (inv.clients.trans hm.1.symm)
      (inv.online.trans hm.2.symm)

theorem perm_range_two (order : List Nat) (h : order.Perm (List.range 2)) :
    order = [0, 1] ∨ order = [1, 0] := by
  have hl : order.length = 2 := by simpa using h.length_eq
  have hnd : order.Nodup := h.nodup_iff.2 (List.nodup_range 2)
  have hmem : ∀ i ∈ order, i < 2 := fun i hi => List.mem_range.1 (h.mem_iff.1 hi)
  match order, hl, hnd, hmem with
  | [a, b], _, hnd, hmem =>
    have ha := hmem a (by simp)
    have hb := hmem b (by simp)
    have hab : a ≠ b := by
      intro e; subst e; simp at hnd
    have h01 : (a = 0 ∧ b = 1) ∨ (a = 1 ∧ b = 0) := by omega
    rcases h01 with ⟨rfl, rfl⟩ | ⟨rfl, rfl⟩
    · exact Or.inl rfl
    · exact Or.inr rfl

theorem two_chats_after_run (as : List Action) (x y : ChatPayload × Time) :
    (handleChat (some y.1) y.2
        (handleChat (some x.1) x.2 (runFrom State.init as)).1).1.allMessages
      = (runFrom State.init as).allMessages ++
        [chatMessage x.1 x.2 (runFrom State.init as).messageID,
         chatMessage y.1 y.2 ((runFrom State.init as).messageID + 1)] ∧
    (handleChat (some y.1) y.2
        (handleChat (some x.1) x.2 (runFrom State.init as)).1).1.messageID
      = (runFrom State.init as).messageID + 2 ∧
    ((handleChat (some y.1) y.2
        (handleChat (some x.1) x.2 (runFrom State.init as)).1).1.allMessages.map
          Message.ID).Pairwise (fun a b => a < b) := by
  refine ⟨?_, ?_, ?_⟩
  · rw [handleChat_fst, handleChat_fst]
    simp [appendMessage, chatMessage]
  · rw [handleChat_fst, handleChat_fst]
    simp only [appendMessage]
    omega
  · have hrun : (handleChat (some y.1) y.2
        (handleChat (some x.1) x.2 (runFrom State.init as)).1).1
        = runFrom State.init
            (as ++ [.frame 0 "" (.chat (some x.1)) x.2, .frame 0 "" (.chat (some y.1)) y.2]) := by
      unfold runFrom
      rw [List.foldl_append]
      rfl
    rw [hrun]
    have h := idInv_runFrom
      (as ++ [.frame 0 "" (.chat (some x.1)) x.2, .frame 0 "" (.chat (some y.1)) y.2])
      State.init (by simp [State.init]) (by simp [State.init])
    rw [h.1]
    exact range_succ_pairwise _

theorem twoChats_run : chatRun twoChatsStart twoChatsSchedule = some twoChatsEnd := by
  rfl

theorem chatStep_readers (c c' : Conc) (i : Nat) (t : ChatThread)
    (hti : c.threads[i]? = some t) (h : chatStep c i = some c') :
    (t.pc = 0 → c.readers = []) ∧
    (t.pc = 5 → c.writer = none ∧ c'.readers = i :: c.readers) ∧
    (t.pc = 7 → c'.readers = c.readers.erase i) ∧
    (t.pc ≠ 5 → t.pc ≠ 7 → c'.readers = c.readers) := by
  unfold chatStep at h
  rw [hti] at h
  simp only at h
  split at h
  · split at h
    · rename_i hpc hg
      cases h
      exact ⟨fun _ => hg.2, by simp [hpc], by simp [hpc], fun _ _ => rfl⟩
    · cases h
  · rename_i hpc; cases h
    exact ⟨by simp [hpc], by simp [hpc], by simp [hpc], fun _ _ => rfl⟩
  · rename_i hpc; cases h
    exact ⟨by simp [hpc], by simp [hpc], by simp [hpc], fun _ _ => rfl⟩
  · rename_i hpc; cases h
    exact ⟨by simp [hpc], by simp [hpc], by simp [hpc], fun _ _ => rfl⟩
  · rename_i hpc; cases h
    exact ⟨by simp [hpc], by simp [hpc], by simp [hpc], fun _ _ => rfl⟩
  · split at h
    · rename_i hpc hg
      cases h
      exact ⟨by simp [hpc], fun _ => ⟨hg, rfl⟩, by simp [hpc], fun h5 _ => absurd hpc h5⟩
    · cases h
  · rename_i hpc; cases h
    exact ⟨by simp [hpc], by simp [hpc], by simp [hpc], fun _ _ => rfl⟩
  · rename_i hpc; cases h
    exact ⟨by simp [hpc], by simp [hpc], fun _ => rfl, fun _ h7 => absurd hpc h7⟩
  · rename_i hpc; cases h
    exact ⟨by simp [hpc], by simp [hpc], by simp [hpc], fun _ _ => rfl⟩
  · cases h

/-- A call that has not returned can execute its next statement unless that statement is
`Lock` and the lock is held, or `RLock` and the lock is held for writing. -/
theorem chatStep_enabled (c : Conc) (i : Nat) (t : ChatThread)
    (hti : c.threads[i]? = some t) (hpc : t.pc ≤ 8)
    (h0 : t.pc = 0 → c.writer = none ∧ c.readers = [])
    (h5 : t.pc = 5 → c.writer = none) :
    ∃ c', chatStep c i = some c' := by
  unfold chatStep
  rw [hti]
  simp only
  rcases (by omega : t.pc = 0 ∨ t.pc = 1 ∨ t.pc = 2 ∨ t.pc = 3 ∨ t.pc = 4 ∨ t.pc = 5 ∨
    t.pc = 6 ∨ t.pc = 7 ∨ t.pc = 8) with e | e | e | e | e | e | e | e | e
  · rw [e]; simp only [if_pos (h0 e)]; exact ⟨_, rfl⟩
  · rw [e]; exact ⟨_, rfl⟩
  · rw [e]; exact ⟨_, rfl⟩
  · rw [e]; exact ⟨_, rfl⟩
  · rw [e]; exact ⟨_, rfl⟩
  · rw [e]; simp only [if_pos (h5 e)]; exact ⟨_, rfl⟩
  · rw [e]; exact ⟨_, rfl⟩
  · rw [e]; exact ⟨_, rfl⟩
  · rw [e]; exact ⟨_, rfl⟩

theorem lockInv_start (s0 : State) (calls : List (ChatPayload × Time)) :
    LockInv (Conc.start s0 calls) := by
  refine ⟨?_, ?_, ?_, List.nodup_nil⟩
  · intro i t ht
    simp only [Conc.start, List.getElem?_map] at ht
    cases hc : calls[i]? with
    | none => rw [hc] at ht; cases ht
    | some x => rw [hc] at ht; cases ht; exact Nat.zero_le _
  · intro i h; cases h
  · intro j hj; cases hj

theorem lockInv_step (c c' : Conc) (i : Nat) (h : chatStep c i = some c')
    (linv : LockInv c) : LockInv c' := by
  obtain ⟨t, t', hti, hth, hp, hnow, hpc, hle, hcl, hon, h0, h1, h2, h3, h4, h5⟩ :=
    chatStep_spec c c' i h
  obtain ⟨r0, r5, r7, rother⟩ := chatStep_readers c c' i t hti h
  have hsame : c'.threads[i]? = some t' := by
    rw [hth]; exact set_getElem?_same _ _ _ _ hti
  have hkeep : ∀ (j : Nat) (tj : ChatThread), j ≠ i → c.threads[j]? = some tj →
      c'.threads[j]? = some tj := by
    intro j tj hj htj
    rw [hth, set_getElem?_ne _ _ _ _ hj]; exact htj
  have hexists : ∀ (j : Nat), (∃ tj, c.threads[j]? = some tj) →
      ∃ tj, c'.threads[j]? = some tj := by
    rintro j ⟨tj, htj⟩
    by_cases hj : j = i
    · subst hj; exact ⟨t', hsame⟩
    · exact ⟨tj, hkeep j tj hj htj⟩
  have hi_not_reader : t.pc ≠ 6 → t.pc ≠ 7 → i ∉ c.readers := by
    intro h6 h7 hmem
    obtain ⟨ti, hti', hor⟩ := linv.readers_pc i hmem
    rw [hti] at hti'; cases hti'
    omega
  refine ⟨?_, ?_, ?_, ?_⟩
  · intro j tj htj
    by_cases hj : j = i
    · subst hj; rw [hsame] at htj; cases htj; omega
    · rw [hth, set_getElem?_ne _ _ _ _ hj] at htj
      exact linv.pc_le j tj htj
  · intro k hk
    rcases (by omega : t.pc = 0 ∨ t.pc = 1 ∨ t.pc = 2 ∨ t.pc = 3 ∨ t.pc = 4 ∨ 5 ≤ t.pc)
      with e | e | e | e | e | e
    · rw [(h0 e).2.1] at hk; cases hk; exact ⟨t', hsame⟩
    · rw [(h1 e).1] at hk; exact hexists k (linv.writer_some k hk)
    · rw [(h2 e).1] at hk; exact hexists k (linv.writer_some k hk)
    · rw [(h3 e).1] at hk; exact hexists k (linv.writer_some k hk)
    · rw [(h4 e).1] at hk; cases hk
    · rw [(h5 e).1] at hk; exact hexists k (linv.writer_some k hk)
  · intro j hj
    by_cases e5 : t.pc = 5
    · rw [(r5 e5).2] at hj
      rcases List.mem_cons.1 hj with hji | hj2
      · subst hji
        exact ⟨t', hsame, Or.inl (by omega)⟩
      · obtain ⟨tj, htj, hor⟩ := linv.readers_pc j hj2
        have hji : j ≠ i := by
          intro hji
          rw [hji] at hj2
          exact hi_not_reader (by omega) (by omega) hj2
        exact ⟨tj, hkeep j tj hji htj, hor⟩
    · by_cases e7 : t.pc = 7
      · rw [r7 e7] at hj
        have hj' := (linv.readers_nodup.mem_erase_iff).1 hj
        obtain ⟨tj, htj, hor⟩ := linv.readers_pc j hj'.2
        exact ⟨tj, hkeep j tj hj'.1 htj, hor⟩
      · rw [rother e5 e7] at hj
        obtain ⟨tj, htj, hor⟩ := linv.readers_pc j hj
        by_cases hji : j = i
        · subst hji
          rw [hti] at htj; cases htj
          exact ⟨t', hsame, Or.inr (by omega)⟩
        · exact ⟨tj, hkeep j tj hji htj, hor⟩
  · by_cases e5 : t.pc = 5
    · rw [(r5 e5).2]
      exact List.nodup_cons.2 ⟨hi_not_reader (by omega) (by omega), linv.readers_nodup⟩
    · by_cases e7 : t.pc = 7
      · rw [r7 e7]; exact linv.readers_nodup.erase i
      · rw [rother e5 e7]; exact linv.readers_nodup

theorem invariants_run (s0 : State) (calls : List (ChatPayload × Time)) (sched : List Nat)
    (c c' : Conc) (order : List Nat) (inv : ChatInv s0 calls c order) (linv : LockInv c)
    (h : chatRun c sched = some c') : ∃ order', ChatInv s0 calls c' order' ∧ LockInv c' := by
  induction sched generalizing c order with
  | nil =>
    simp only [chatRun] at h
    cases h
    exact ⟨order, inv, linv⟩
  | cons i sched ih =>
    simp only [chatRun] at h
    cases hs : chatStep c i with
    | none => rw [hs] at h; cases h
    | some c1 =>
      rw [hs] at h
      obtain ⟨order1, inv1⟩ := chatInv_step s0 calls c c1 order i hs inv
      exact ih c1 order1 inv1 (lockInv_step c c1 i hs linv) h

/-- No deadlock: while some call has not returned, some call can execute a statement. -/
theorem chatStep_progress (s0 : State) (calls : List (ChatPayload × Time)) (c : Conc)
    (order : List Nat) (inv : ChatInv s0 calls c order) (linv : LockInv c)
    (i : Nat) (t : ChatThread) (hti : c.threads[i]? = some t) (hlt : t.pc < 9) :
    ∃ j c', chatStep c j = some c' := by
  cases hw : c.writer with
  | some k =>
    obtain ⟨tk, htk⟩ := linv.writer_some k hw
    have hcs := (inv.mutex k tk htk).1 hw
    obtain ⟨c', hc'⟩ := chatStep_enabled c k tk htk (by omega) (by omega) (by omega)
    exact ⟨k, c', hc'⟩
  | none =>
    have hnocs : ∀ (j : Nat) (tj : ChatThread), c.threads[j]? = some tj →
        ¬ (1 ≤ tj.pc ∧ tj.pc ≤ 4) := by
      intro j tj htj hcs
      have := (inv.mutex j tj htj).2 hcs
      rw [hw] at this; cases this
    by_cases hex : ∃ (j : Nat) (tj : ChatThread), c.threads[j]? = some tj ∧ 5 ≤ tj.pc ∧ tj.pc ≤ 8
    · obtain ⟨j, tj, htj, h5, h8⟩ := hex
      obtain ⟨c', hc'⟩ := chatStep_enabled c j tj htj h8 (by omega) (fun _ => hw)
      exact ⟨j, c', hc'⟩
    · have hr : c.readers = [] := by
        cases hrd : c.readers with
        | nil => rfl
        | cons j rest =>
          obtain ⟨tj, htj, hor⟩ := linv.readers_pc j (by rw [hrd]; exact List.mem_cons_self _ _)
          exact absurd ⟨j, tj, htj, by omega, by omega⟩ hex
      have h0 : t.pc = 0 := by
        have h1 := hnocs i t hti
        have h2 : ¬ (5 ≤ t.pc ∧ t.pc ≤ 8) := fun h => hex ⟨i, t, hti, h.1, h.2⟩
        omega
      obtain ⟨c', hc'⟩ := chatStep_enabled c i t hti (by omega) (fun _ => ⟨hw, hr⟩) (by omega)
      exact ⟨i, c', hc'⟩

theorem remaining_set (ts : List ChatThread) (i : Nat) (t t' : ChatThread)
    (hti : ts[i]? = some t) (h8 : t.pc ≤ 8) (hpc : t'.pc = t.pc + 1) :
    ((ts.set i t').map (fun x => 9 - x.pc)).sum + 1 = (ts.map (fun x => 9 - x.pc)).sum := by
  induction ts generalizing i with
  | nil => simp at hti
  | cons a ts ih =>
    cases i with
    | zero =>
      simp only [List.getElem?_cons_zero, Option.some.injEq] at hti
      subst hti
      simp only [List.set_cons_zero, List.map_cons, List.sum_cons]
      omega
    | succ i =>
      simp only [List.getElem?_cons_succ] at hti
      simp only [List.set_cons_succ, List.map_cons, List.sum_cons]
      have := ih i hti
      omega

/-- Every interleaved execution can be continued until all calls have returned. -/
theorem chatRun_can_finish (s0 : State) (calls : List (ChatPayload × Time)) (n : Nat) :
    ∀ (c : Conc) (order : List Nat), ChatInv s0 calls c order → LockInv c →
      (c.threads.map (fun x => 9 - x.pc)).sum ≤ n →
      ∃ sched c', chatRun c sched = some c' ∧ ∀ t ∈ c'.threads, t.pc = 9 := by
  induction n with
  | zero =>
    intro c order inv linv hn
    refine ⟨[], c, rfl, ?_⟩
    intro t ht
    obtain ⟨i, hi⟩ := List.mem_iff_getElem?.1 ht
    have h9 := linv.pc_le i t hi
    have hz : (c.threads.map (fun x => 9 - x.pc)).sum = 0 := by omega
    have := List.sum_eq_zero_iff.1 hz (9 - t.pc) (List.mem_map.2 ⟨t, ht, rfl⟩)
    omega
  | succ n ih =>
    intro c order inv linv hn
    by_cases hall : ∀ t ∈ c.threads, t.pc = 9
    · exact ⟨[], c, rfl, hall⟩
    · push_neg at hall
      obtain ⟨t, ht, hne⟩ := hall
      obtain ⟨i, hi⟩ := List.mem_iff_getElem?.1 ht
      have h9 := linv.pc_le i t hi
      obtain ⟨j, c1, hstep⟩ := chatStep_progress s0 calls c order inv linv i t hi (by omega)
      obtain ⟨order1, inv1⟩ := chatInv_step s0 calls c c1 order j hstep inv
      have linv1 := lockInv_step c c1 j hstep linv
      obtain ⟨tj, tj', htj, hth, -, -, hpc, hle, -⟩ := chatStep_spec c c1 j hstep
      have hrem := remaining_set c.threads j tj tj' htj hle hpc
      rw [← hth] at hrem
      obtain ⟨sched, c', hrun, hdone⟩ := ih c1 order1 inv1 linv1 (by omega)
      refine ⟨j :: sched, c', ?_, hdone⟩
      simp only [chatRun, hstep]
      exact hrun

/-- A call that runs alone, statement by statement, does what the atomic handler does. -/
theorem chatRun_alone (s : State) (p : ChatPayload) (now : Time) :
    (chatRun (Conc.start s [(p, now)]) [0, 0, 0, 0, 0, 0, 0, 0, 0]).map
        (fun c => (c.shared, c.out))
      = some (handleChat (some p) now s) := by
  simp only [chatRun, chatStep, Conc.start, List.map_cons, List.map_nil,
    List.getElem?_cons_zero, List.set_cons_zero, Option.bind_some, Option.some_bind,
    and_self, if_true, ite_true, List.erase_cons_head, Option.map_some', List.nil_append,
    beq_self_eq_true]
  cases h : s.clients.lookup p.To with
  | none =>
    simp only [handleChat, appendMessage, chatMessage, h]
  | some conn =>
    simp only [handleChat, appendMessage, chatMessage, h]

/-- C17. Two calls of `handleChat` run statement by statement in any interleaving that the
lock permits, from any reachable state.  The execution can always be continued until both
calls have returned.  Once both have executed line 136, the shared variables are exactly
those left by the two atomic handlers run one after the other in one of the two orders (a
serialization of the appends): the log is the old log followed by the two messages, the
first with id k and the second with id k + 1 for k the old counter, the counter is k + 2,
the ids of the whole log are strictly increasing, and each of the two messages occurs exactly
once in the history of its own sender and recipient. -/
theorem interleaved_chats_serialize (as : List Action) (pa pb : ChatPayload) (na nb : Time)
    (sched : List Nat) (c : Conc)
    (hrun : chatRun (Conc.start (runFrom State.init as) [(pa, na), (pb, nb)]) sched = some c) :
    (∃ sched' c', chatRun c sched' = some c' ∧ ∀ t ∈ c'.threads, t.pc = 9) ∧
    ((∀ t ∈ c.threads, 4 ≤ t.pc) →
      ∃ x y : ChatPayload × Time,
        ((x = (pa, na) ∧ y = (pb, nb)) ∨ (x = (pb, nb) ∧ y = (pa, na))) ∧
        c.shared
          = (handleChat (some y.1) y.2
              (handleChat (some x.1) x.2 (runFrom State.init as)).1).1 ∧
        c.shared.allMessages
          = (runFrom State.init as).allMessages ++
            [chatMessage x.1 x.2 (runFrom State.init as).messageID,
             chatMessage y.1 y.2 ((runFrom State.init as).messageID + 1)] ∧
        c.shared.messageID = (runFrom State.init as).messageID + 2 ∧
        (c.shared.allMessages.map Message.ID).Pairwise (fun a b => a < b) ∧
        (∀ m ∈ [chatMessage x.1 x.2 (runFrom State.init as).messageID,
                chatMessage y.1 y.2 ((runFrom State.init as).messageID + 1)],
          (history m.From m.To c.shared.allMessages).count m = 1)) := by
  constructor
  · obtain ⟨order, inv, linv⟩ :=
      invariants_run (runFrom State.init as) [(pa, na), (pb, nb)] sched _ c []
        (chatInv_start _ _) (lockInv_start _ _) hrun
    exact chatRun_can_finish (runFrom State.init as) [(pa, na), (pb, nb)] _ c order inv linv
      (Nat.le_refl _)
  · intro hdone
    obtain ⟨order, hperm, hsh⟩ :=
      chatRun_serializable (runFrom State.init as) [(pa, na), (pb, nb)] sched c hrun hdone
    have key : ∀ x y : ChatPayload × Time,
        c.shared = (handleChat (some y.1) y.2
          (handleChat (some x.1) x.2 (runFrom State.init as)).1).1 →
        c.shared
          = (handleChat (some y.1) y.2
              (handleChat (some x.1) x.2 (runFrom State.init as)).1).1 ∧
        c.shared.allMessages
          = (runFrom State.init as).allMessages ++
            [chatMessage x.1 x.2 (runFrom State.init as).messageID,
             chatMessage y.1 y.2 ((runFrom State.init as).messageID + 1)] ∧
        c.shared.messageID = (runFrom State.init as).messageID + 2 ∧
        (c.shared.allMessages.map Message.ID).Pairwise (fun a b => a < b) ∧
        (∀ m ∈ [chatMessage x.1 x.2 (runFrom State.init as).messageID,
                chatMessage y.1 y.2 ((runFrom State.init as).messageID + 1)],
          (history m.From m.To c.shared.allMessages).count m = 1) := by
      intro x y hc
      obtain ⟨h1, h2, h3⟩ := two_chats_after_run as x y
      rw [← hc] at h1 h2 h3
      refine ⟨hc, h1, h2, h3, ?_⟩
      intro m hm
      have hnd : c.shared.allMessages.Nodup :=
        List.Nodup.of_map Message.ID (h3.imp (fun hab => ne_of_lt hab))
      have hmem : m ∈ c.shared.allMessages := by
        rw [h1]; exact List.mem_append_right _ hm
      rw [history_eq_filter, List.count_filter (by simp)]
      exact List.count_eq_one_of_mem hnd hmem
    rcases perm_range_two order (by simpa using hperm) with ho | ho
    · refine ⟨(pa, na), (pb, nb), Or.inl ⟨rfl, rfl⟩, key _ _ ?_⟩
      rw [hsh, ho]; rfl
    · refine ⟨(pb, nb), (pa, na), Or.inr ⟨rfl, rfl⟩, key _ _ ?_⟩
      rw [hsh, ho]; rfl

/-- Instance of C17 at the run `twoChatsSchedule` of two chats to "r": both calls have
returned, and the stored messages are the one of "a" with id 1 followed by the one of "b"
with id 2. -/
theorem interleaved_chats_serialize_witness :
    ∃ x y : ChatPayload × Time,
      ((x = ({ From := "a", To := "r", Message := "x" }, 3) ∧
          y = ({ From := "b", To := "r", Message := "y" }, 4)) ∨
        (x = ({ From := "b", To := "r", Message := "y" }, 4) ∧
          y = ({ From := "a", To := "r", Message := "x" }, 3))) ∧
      twoChatsEnd.shared
        = (handleChat (some y.1) y.2
            (handleChat (some x.1) x.2 (runFrom State.init [.connect "r" 7])).1).1 ∧
      twoChatsEnd.shared.allMessages
        = (runFrom State.init [.connect "r" 7]).allMessages ++
          [chatMessage x.1 x.2 (runFrom State.init [.connect "r" 7]).messageID,
           chatMessage y.1 y.2 ((runFrom State.init [.connect "r" 7]).messageID + 1)] ∧
      twoChatsEnd.shared.messageID = (runFrom State.init [.connect "r" 7]).messageID + 2 ∧
      (twoChatsEnd.shared.allMessages.map Message.ID).Pairwise (fun a b => a < b) ∧
      (∀ m ∈ [chatMessage x.1 x.2 (runFrom State.init [.connect "r" 7]).messageID,
              chatMessage y.1 y.2 ((runFrom State.init [.connect "r" 7]).messageID + 1)],
        (history m.From m.To twoChatsEnd.shared.allMessages).count m = 1) :=
  (interleaved_chats_serialize [.connect "r" 7]
    { From := "a", To := "r", Message := "x" } { From := "b", To := "r", Message := "y" } 3 4
    twoChatsSchedule twoChatsEnd rfl).2 (by decide)

end ChatServer
